import Mathlib

/-!
Verification of the transactional unit-of-work manager in
`database/gdb/gdb_core_transaction.go` (package gdb).

The Go code is shallowly embedded as follows:

* `Ctx` models `context.Context`: `nil`, a base context, or a
  `context.WithValue` chain.  `Ctx.value` is `ctx.Value`.
* `TXData` models the mutable `TX` struct (pointer-shared), addressed by an
  index into `World.heap`; `World` also carries the ordered list of statements
  that reached the database driver (`trace`) and the id-generator state.
* An `Oracle` decides, per statement, the driver's error result (`none` = Go
  `nil` error).  Tracing/logging calls (`addSqlToTracing`,
  `writeSqlToLogger`) are fire-and-forget and never affect control flow, so
  they are not part of the model's observable state.
* `Prog` is the universe of user-supplied unit-of-work bodies: return nil or
  an error, panic, execute SQL through the handle, or call the nested
  `Transaction` on the same database.
-/
/-! ### Basic state lemmas -/
/-! ### Step lemmas for the translated operations -/
/-! ### Trace-append algebra -/
/-! ### Unfolding lemmas for the executor -/

namespace GdbTx

/-- A Go `error` value; `none` plays the role of `nil`. -/
abbrev Err := String

/-- A statement observed by the database driver.  Physical
`BEGIN` / `COMMIT` / `ROLLBACK` come from `master.Begin`, `sql.Tx.Commit`
and `sql.Tx.Rollback`; every other statement reaches the driver through
`TX.Exec` as SQL text (including the savepoint statements). -/
inductive Stmt where
  | begin
  | commit
  | rollback
  | exec (sql : String)
deriving DecidableEq, Repr

/-- The driver model: each statement submitted to the driver yields an
optional error, determined by the statement. -/
abbrev Oracle := Stmt → Option Err

/-- The all-success driver: every statement returns a nil error. -/
def allOk : Oracle := fun _ => none

/-- A value stored in a context chain: either a `*TX` pointer (under a
transaction group key) or the numeric transaction id used for logging. -/
inductive CtxVal where
  | txRef (id : Nat)
  | txNum (n : Nat)
deriving DecidableEq, Repr

/-- Go `context.Context`: Go `nil`, a base context, or a `WithValue` wrapper. -/
inductive Ctx where
  | nil
  | root
  | withValue (parent : Ctx) (key : String) (v : CtxVal)
deriving DecidableEq, Repr

/-- Lookup `ctx.Value(key)`: the most recently attached value for `key`. -/
def Ctx.value : Ctx → String → Option CtxVal
  | .nil, _ => none
  | .root, _ => none
  | .withValue p k v, key => if k = key then some v else p.value key

/-- The `TX` struct: the fields of the Go struct that carry state visible to
this core.  `group` is `tx.db.GetGroup()`, `dbCtx` is `tx.db.GetCtx()`
(fixed per database manager), `ctx` is the `tx.ctx` field, `transactionId`
models the `guid.S()` identifier, and `transactionCount` is the nesting
counter (a Go `int`, hence `Int`). -/
structure TXData where
  group : String
  dbCtx : Ctx
  ctx : Ctx
  transactionId : Nat
  transactionCount : Int
deriving DecidableEq, Repr

/-- The global state: allocated `TX` objects (addressed by list index, which
stands for the Go pointer), the ordered statement trace seen by the driver,
and the id-generator counter. -/
structure World where
  heap : List TXData
  trace : List Stmt
  gen : Nat
deriving DecidableEq, Repr

def defaultTX : TXData := ⟨"", .root, .root, 0, 0⟩

def World.getTx (w : World) (id : Nat) : TXData := w.heap.getD id defaultTX

def World.setTx (w : World) (id : Nat) (d : TXData) : World :=
  { w with heap := w.heap.set id d }

def World.emit (w : World) (s : Stmt) : World :=
  { w with trace := w.trace ++ [s] }

/-- The database manager (`Core`) configuration: its group name and its own
context `GetCtx()` (modelled from the spec as the process-level default
context of the manager). -/
structure DBConf where
  group : String
  dbCtx : Ctx

/-- Source constant `transactionPointerPrefix = "transaction"`. -/
def transactionPointerName : String := "transaction"

/-- Source constant `contextTransactionKeyPrefix = "TransactionObjectForGroup_"`. -/
def contextTransactionKeyName : String := "TransactionObjectForGroup_"

/-- Source constant `transactionIdForLoggerCtx = "TransactionId"`. -/
def transactionIdForLoggerCtx : String := "TransactionId"

/-- Source `transactionKeyForContext(group)`. -/
def transactionKeyForContext (group : String) : String :=
  contextTransactionKeyName ++ group

/-- Modelled from the spec: `QuoteWord` is the SQL dialect's
identifier-quoting function (not part of the excerpted source); the spec's
scenarios show the savepoint names unquoted, so it is the identity. -/
def QuoteWord (s : String) : String := s

/-- Source `(tx *TX) transactionKeyForNestedPoint()`: the savepoint name at the
current value of the nesting counter. -/
def transactionKeyForNestedPoint (d : TXData) : String :=
  QuoteWord (transactionPointerName ++ toString d.transactionCount)

/-- The savepoint name for counter value `c`. -/
def savePointName (c : Int) : String :=
  QuoteWord (transactionPointerName ++ toString c)

/-- Source `TXFromCtx(ctx, group)`: returns `nil` for a nil context or an absent
key; on a hit it re-points the found handle's stored context to the lookup
context (`tx.ctx = ctx`) and returns the handle. -/
def TXFromCtx (w : World) (ctx : Ctx) (group : String) : World × Option Nat :=
  match ctx with
  | .nil => (w, none)
  | _ =>
    match ctx.value (transactionKeyForContext group) with
    | some (.txRef id) => (w.setTx id { w.getTx id with ctx := ctx }, some id)
    | _ => (w, none)

/-- Whether a lookup result is a handle whose group matches (the
`tx != nil && tx.db.GetGroup() == group` test in `WithTX`). -/
def foundGroup (w : World) (r : Option Nat) (group : String) : Bool :=
  match r with
  | some id2 => (w.getTx id2).group == group
  | none => false

/-- Source `WithTX(ctx, tx)`: injects the transaction handle into the context,
unless the context (or the database manager's own context) already carries
a handle of the same group. -/
def WithTX (w : World) (ctx : Ctx) (txo : Option Nat) : World × Ctx :=
  match txo with
  | none => (w, ctx)
  | some id =>
    let group := (w.getTx id).group
    let r1 := TXFromCtx w ctx group
    if foundGroup r1.1 r1.2 group then (r1.1, ctx)
    else
      let dbCtx := (r1.1.getTx id).dbCtx
      let r2 := TXFromCtx r1.1 dbCtx group
      if foundGroup r2.1 r2.2 group then (r2.1, dbCtx)
      else (r2.1, ctx.withValue (transactionKeyForContext group) (.txRef id))

/-- Modelled from the spec: `DoExec` (a collaborator outside the excerpted
file) forwards the SQL text to the driver through the transaction's
connection and returns the driver's error. -/
def TX.Exec (o : Oracle) (w : World) (_id : Nat) (sql : String) : World × Option Err :=
  (w.emit (.exec sql), o (.exec sql))

/-- Source `(tx *TX) Begin()`: emits `SAVEPOINT <name>` (name from the current
counter) and increments the counter only on success. -/
def TX.Begin (o : Oracle) (w : World) (id : Nat) : World × Option Err :=
  let r := TX.Exec o w id ("SAVEPOINT " ++ transactionKeyForNestedPoint (w.getTx id))
  match r.2 with
  | some err => (r.1, some err)
  | none =>
    (r.1.setTx id { r.1.getTx id with
        transactionCount := (r.1.getTx id).transactionCount + 1 }, none)

/-- Source `(tx *TX) Commit()`: at positive counter, decrements first and emits
`RELEASE SAVEPOINT` named from the decremented counter; at counter 0,
performs the physical `COMMIT`. -/
def TX.Commit (o : Oracle) (w : World) (id : Nat) : World × Option Err :=
  let d := w.getTx id
  if 0 < d.transactionCount then
    let d' := { d with transactionCount := d.transactionCount - 1 }
    let w1 := w.setTx id d'
    TX.Exec o w1 id ("RELEASE SAVEPOINT " ++ transactionKeyForNestedPoint d')
  else
    (w.emit .commit, o .commit)

/-- Source `(tx *TX) Rollback()`: at positive counter, decrements first and emits
`ROLLBACK TO SAVEPOINT` named from the decremented counter; at counter 0,
performs the physical `ROLLBACK`. -/
def TX.Rollback (o : Oracle) (w : World) (id : Nat) : World × Option Err :=
  let d := w.getTx id
  if 0 < d.transactionCount then
    let d' := { d with transactionCount := d.transactionCount - 1 }
    let w1 := w.setTx id d'
    TX.Exec o w1 id ("ROLLBACK TO SAVEPOINT " ++ transactionKeyForNestedPoint d')
  else
    (w.emit .rollback, o .rollback)

/-- Source `(c *Core) doBeginCtx(ctx)`: issues the physical `BEGIN`; on success
allocates a fresh `TX` whose context is `ctx` extended with the logger
transaction id, with a fresh `transactionId` and counter 0. -/
def doBeginCtx (o : Oracle) (conf : DBConf) (w : World) (ctx : Ctx) :
    World × Except Err Nat :=
  let w1 := w.emit .begin
  match o .begin with
  | some err => (w1, .error err)
  | none =>
    let d : TXData :=
      { group := conf.group
        dbCtx := conf.dbCtx
        ctx := ctx.withValue transactionIdForLoggerCtx (.txNum (w1.gen + 1))
        transactionId := w1.gen + 2
        transactionCount := 0 }
    ({ heap := w1.heap ++ [d], trace := w1.trace, gen := w1.gen + 2 },
     .ok w1.heap.length)

/-- The result of running a user function: a returned error value, or a
panic with its payload. -/
inductive Outcome where
  | value (e : Option Err)
  | panicked (msg : String)
deriving DecidableEq, Repr

/-- The deferred finalization block shared by `Core.Transaction` and
`TX.Transaction`: a panic (possible only when `err` is still nil) is
recovered and converted by `fmt.Errorf("%v", e)` into an error whose
message is the panic payload; on error the handle is rolled back and a
non-nil rollback error supersedes, otherwise the handle is committed and
its error returned. -/
def finalize (o : Oracle) (w : World) (id : Nat) (out : Outcome) : World × Option Err :=
  let err : Option Err :=
    match out with
    | .value e => e
    | .panicked m => some m
  match err with
  | some e0 =>
    match TX.Rollback o w id with
    | (w1, some e) => (w1, some e)
    | (w1, none) => (w1, some e0)
  | none => TX.Commit o w id

/-- A user-supplied unit-of-work body: return an error or nil, panic,
execute a SQL statement through the handle and continue, or invoke the
nested `Transaction` on the same database and return its error. -/
inductive Prog where
  | ret (e : Option Err)
  | panics (msg : String)
  | exec (sql : String) (k : Prog)
  | nest (inner : Prog)
deriving DecidableEq, Repr

/-- Source `(tx *TX) Transaction(ctx, f)` with the running of `f` abstracted:
re-points `tx.ctx` to a non-nil `ctx`, injects the handle if the context
does not already carry one for the group, performs the nested `Begin`, and
on success runs the body under the deferred finalization. -/
def txTransactionWith (run : World → Ctx → Nat → World × Outcome) (o : Oracle)
    (w : World) (id : Nat) (ctx : Ctx) : World × Option Err :=
  let w0 := if ctx = Ctx.nil then w else w.setTx id { w.getTx id with ctx := ctx }
  let r1 := TXFromCtx w0 (w0.getTx id).ctx (w0.getTx id).group
  let w2 : World :=
    match r1.2 with
    | some _ => r1.1
    | none =>
      let r := WithTX r1.1 (r1.1.getTx id).ctx (some id)
      r.1.setTx id { r.1.getTx id with ctx := r.2 }
  let r3 := TX.Begin o w2 id
  match r3.2 with
  | some err => (r3.1, some err)
  | none =>
    let r4 := run r3.1 ((r3.1.getTx id).ctx) id
    finalize o r4.1 id r4.2

/-- Source `(c *Core) Transaction(ctx, f)` with the running of `f` abstracted:
substitutes the manager's context for a nil one, delegates to the handle
found in the context if any, otherwise begins a new physical transaction,
injects the handle into its context, and runs the body under the deferred
finalization. -/
def coreTransactionWith (run : World → Ctx → Nat → World × Outcome) (o : Oracle)
    (conf : DBConf) (w : World) (ctx : Ctx) : World × Option Err :=
  let ctx0 := if ctx = Ctx.nil then conf.dbCtx else ctx
  let r1 := TXFromCtx w ctx0 conf.group
  match r1.2 with
  | some id => txTransactionWith run o r1.1 id ctx0
  | none =>
    match doBeginCtx o conf r1.1 ctx0 with
    | (w2, .error err) => (w2, some err)
    | (w2, .ok id) =>
      let r3 := WithTX w2 (w2.getTx id).ctx (some id)
      let w4 := r3.1.setTx id { r3.1.getTx id with ctx := r3.2 }
      let r5 := run w4 ((w4.getTx id).ctx) id
      finalize o r5.1 id r5.2

/-- Runs a user function body: `nest` re-enters `Core.Transaction` with the
context the body received. -/
def runFn (o : Oracle) (conf : DBConf) : Prog → World → Ctx → Nat → World × Outcome
  | .ret e, w, _, _ => (w, .value e)
  | .panics m, w, _, _ => (w, .panicked m)
  | .exec sql k, w, ctxArg, id =>
    runFn o conf k (TX.Exec o w id sql).1 ctxArg id
  | .nest inner, w, ctxArg, _ =>
    let r := coreTransactionWith
      (fun w' c' id' => runFn o conf inner w' c' id') o conf w ctxArg
    (r.1, .value r.2)

/-- Source `(c *Core) Transaction(ctx, f)` for a body drawn from `Prog`. -/
def coreTransaction (o : Oracle) (conf : DBConf) (w : World) (ctx : Ctx)
    (p : Prog) : World × Option Err :=
  coreTransactionWith (fun w' c' id' => runFn o conf p w' c' id') o conf w ctx

/-- Source `(tx *TX) Transaction(ctx, f)` for a body drawn from `Prog`. -/
def txTransaction (o : Oracle) (conf : DBConf) (w : World) (id : Nat) (ctx : Ctx)
    (p : Prog) : World × Option Err :=
  txTransactionWith (fun w' c' id' => runFn o conf p w' c' id') o w id ctx

/-- An operation invoked directly on a transaction handle. -/
inductive TxOp where
  | beginOp
  | commitOp
  | rollbackOp
deriving DecidableEq, Repr

/-- Applies one handle operation, keeping only the state. -/
def applyOp (o : Oracle) (w : World) (id : Nat) : TxOp → World
  | .beginOp => (TX.Begin o w id).1
  | .commitOp => (TX.Commit o w id).1
  | .rollbackOp => (TX.Rollback o w id).1

/-- Applies a sequence of handle operations. -/
def runOps (o : Oracle) (w : World) (id : Nat) : List TxOp → World
  | [] => w
  | op :: rest => runOps o (applyOp o w id op) id rest

/-- The empty initial world. -/
def W0 : World := ⟨[], [], 0⟩

/-- A database manager for group `"default"` with the base context. -/
def conf0 : DBConf := ⟨"default", Ctx.root⟩

/-- The straight nesting chain of unit-of-work calls: `chain k` performs `k`
further nested `Transaction` calls and the innermost body returns nil, so
`coreTransaction _ _ _ _ (chain k)` is a nesting of total depth `k + 1`. -/
def chain : Nat → Prog
  | 0 => .ret none
  | k + 1 => .nest (chain k)

/-- The straight nesting chain whose innermost body returns the error `E`. -/
def chainE (E : Err) : Nat → Prog
  | 0 => .ret (some E)
  | k + 1 => .nest (chainE E k)

/-- The `SAVEPOINT` statement created at counter value `c`. -/
def spStmt (c : Int) : Stmt := .exec ("SAVEPOINT " ++ savePointName c)

/-- The `RELEASE SAVEPOINT` statement for the savepoint of counter value `c`. -/
def relStmt (c : Int) : Stmt := .exec ("RELEASE SAVEPOINT " ++ savePointName c)

/-- The `ROLLBACK TO SAVEPOINT` statement for the savepoint of counter value `c`. -/
def rbToStmt (c : Int) : Stmt := .exec ("ROLLBACK TO SAVEPOINT " ++ savePointName c)

/-- The savepoint statements created by counters `c, c+1, …, c+k-1`, in
creation order. -/
def spList (c : Int) : Nat → List Stmt
  | 0 => []
  | k + 1 => spStmt c :: spList (c + 1) k

/-- The release statements for savepoints `c, …, c+k-1`, in emission
(reverse-creation) order. -/
def relList (c : Int) : Nat → List Stmt
  | 0 => []
  | k + 1 => relList (c + 1) k ++ [relStmt c]

/-- The rollback-to statements for savepoints `c, …, c+k-1`, in emission
(reverse-creation) order. -/
def rbList (c : Int) : Nat → List Stmt
  | 0 => []
  | k + 1 => rbList (c + 1) k ++ [rbToStmt c]

/-- Recognizes the physical `COMMIT`. -/
def isCommitStmt : Stmt → Bool
  | .commit => true
  | _ => false

/-- Recognizes the physical `BEGIN`. -/
def isBeginStmt : Stmt → Bool
  | .begin => true
  | _ => false

/-- Recognizes a physical finalization (`COMMIT` or `ROLLBACK`). -/
def isFinalStmt : Stmt → Bool
  | .commit => true
  | .rollback => true
  | _ => false

/-- Recognizes a statement issued against the physical transaction state
(`BEGIN`, `COMMIT` or `ROLLBACK`), as opposed to forwarded SQL text. -/
def isPhysicalStmt : Stmt → Bool
  | .exec _ => false
  | _ => true

/-- Turns the `SAVEPOINT <n>` statement into `RELEASE SAVEPOINT <n>`. -/
def releaseOf : Stmt → Stmt
  | .exec s => .exec ("RELEASE " ++ s)
  | s => s

/-- Turns the `SAVEPOINT <n>` statement into `ROLLBACK TO SAVEPOINT <n>`. -/
def rollbackToOf : Stmt → Stmt
  | .exec s => .exec ("ROLLBACK TO " ++ s)
  | s => s

/-- Appends a block of statements to the trace. -/
def World.emitAll (w : World) (l : List Stmt) : World :=
  { w with trace := w.trace ++ l }

/-- The context of the handle created by `coreTransaction allOk conf0 W0
Ctx.root _`: the base context extended with the logger transaction number
and then with the handle binding. -/
def ctxAfterBegin : Ctx :=
  (Ctx.root.withValue transactionIdForLoggerCtx (.txNum 1)).withValue
    (transactionKeyForContext "default") (.txRef 0)

/-- The handle allocated by the first `BEGIN` on the empty world. -/
def txAfterBegin : TXData := ⟨"default", .root, ctxAfterBegin, 2, 0⟩

/-- The world just after the first `BEGIN` on the empty world, handle
injected into its context. -/
def worldAfterBegin : World := ⟨[txAfterBegin], [.begin], 2⟩

/-- Recognizes the physical `ROLLBACK`. -/
def isRollbackStmt : Stmt → Bool
  | .rollback => true
  | _ => false

/-- The state change made by a delegated (non-owner) operation: the trace
grows only by non-physical statements, no handle is allocated or freed,
and the handle `id` keeps its identity fields, with its nesting counter
changed by exactly `δ`. -/
def StepExt (w w' : World) (id : Nat) (δ : Int) : Prop :=
  (∃ t, w'.trace = w.trace ++ t ∧ t.countP isPhysicalStmt = 0) ∧
  w'.heap.length = w.heap.length ∧
  (w'.getTx id).transactionCount = (w.getTx id).transactionCount + δ ∧
  (w'.getTx id).group = (w.getTx id).group ∧
  (w'.getTx id).transactionId = (w.getTx id).transactionId ∧
  (w'.getTx id).dbCtx = (w.getTx id).dbCtx

/-- The invariant under which a unit-of-work call is a pure delegation: the
context carries handle `id` for the manager's group, the handle is
allocated, belongs to that group, and its counter is non-negative. -/
def CtxInv (conf : DBConf) (w : World) (ctx : Ctx) (id : Nat) : Prop :=
  ctx ≠ Ctx.nil ∧
  ctx.value (transactionKeyForContext conf.group) = some (.txRef id) ∧
  id < w.heap.length ∧
  (w.getTx id).group = conf.group ∧
  0 ≤ (w.getTx id).transactionCount

/-- Checks, along a run, that the nesting counter is non-negative after
every operation. -/
def counterNonNeg (o : Oracle) (w : World) (id : Nat) : List TxOp → Bool
  | [] => true
  | op :: rest =>
    (decide (0 ≤ ((applyOp o w id op).getTx id).transactionCount)) &&
      counterNonNeg o (applyOp o w id op) id rest

/-- Checks, along a run, that an operation emits a physical finalization
only when performed at counter 0. -/
def physAtZeroOnly (o : Oracle) (w : World) (id : Nat) : List TxOp → Bool
  | [] => true
  | op :: rest =>
    (((applyOp o w id op).trace.countP isFinalStmt == w.trace.countP isFinalStmt)
      || ((w.getTx id).transactionCount == 0)) &&
      physAtZeroOnly o (applyOp o w id op) id rest

/-- Checks that no operation is performed on a handle whose physical
transaction has already been finalized (the spec's lifecycle: `Finalized`
is terminal). -/
def noAfterFinal (o : Oracle) (w : World) (id : Nat) : List TxOp → Bool
  | [] => true
  | op :: rest =>
    (decide (w.trace.countP isFinalStmt = 0)) &&
      noAfterFinal o (applyOp o w id op) id rest

/-- A world holding one handle for group `"g"` at counter 0, bound in
`boundCtx`. -/
def boundCtx : Ctx :=
  Ctx.root.withValue (transactionKeyForContext "g") (.txRef 0)

def boundWorld : World := ⟨[⟨"g", Ctx.root, boundCtx, 7, 0⟩], [], 0⟩

/-- A world holding one fresh handle (counter 0, nothing emitted yet). -/
def freshWorld : World := ⟨[⟨"default", Ctx.root, Ctx.root, 1, 0⟩], [], 0⟩

/-- A world holding one handle inside one level of nesting (counter 1). -/
def nestedWorld : World := ⟨[⟨"default", Ctx.root, Ctx.root, 1, 1⟩], [], 0⟩

/-- The handle id found by a context lookup is a pure function of the
context. -/
def ctxFound (ctx : Ctx) (g : String) : Option Nat :=
  match ctx with
  | .nil => none
  | _ =>
    match ctx.value (transactionKeyForContext g) with
    | some (.txRef i) => some i
    | _ => none

/-- A driver in which only the physical `ROLLBACK` fails. -/
def rbFail : Oracle := fun s => if s = Stmt.rollback then some "rbfail" else none

theorem getTx_setTx_self (w : World) (id : Nat) (d : TXData) (h : id < w.heap.length) :
    (w.setTx id d).getTx id = d := by
  simp [World.getTx, World.setTx, List.getElem?_set_self h]

theorem getTx_setTx_ne (w : World) (i j : Nat) (d : TXData) (h : i ≠ j) :
    (w.setTx i d).getTx j = w.getTx j := by
  simp [World.getTx, World.setTx, List.getElem?_set_ne h]

theorem setTx_setTx (w : World) (id : Nat) (d d' : TXData) :
    (w.setTx id d).setTx id d' = w.setTx id d' := by
  simp [World.setTx, List.set_set]

theorem setTx_getTx_self (w : World) (id : Nat) (h : id < w.heap.length) :
    w.setTx id (w.getTx id) = w := by
  have : w.heap.set id (w.getTx id) = w.heap := by
    apply List.ext_getElem?
    intro n
    by_cases hn : id = n
    · subst hn
      simp [World.getTx, List.getElem?_set_self h, List.getD_eq_getElem?_getD,
        List.getElem?_eq_getElem h]
    · simp [List.getElem?_set_ne hn]
  simp [World.setTx, this]

theorem setTx_heap_length (w : World) (id : Nat) (d : TXData) :
    ((w.setTx id d).heap).length = w.heap.length := by
  simp [World.setTx]

theorem TXFromCtx_found (w : World) (ctx : Ctx) (g : String) (id : Nat)
    (h1 : ctx ≠ Ctx.nil)
    (h2 : ctx.value (transactionKeyForContext g) = some (.txRef id)) :
    TXFromCtx w ctx g = (w.setTx id { w.getTx id with ctx := ctx }, some id) := by
  cases ctx with
  | nil => exact absurd rfl h1
  | root => simp [TXFromCtx, h2]
  | withValue p k v => simp [TXFromCtx, h2]

theorem TXFromCtx_notfound (w : World) (ctx : Ctx) (g : String)
    (h2 : ctx.value (transactionKeyForContext g) = none) :
    TXFromCtx w ctx g = (w, none) := by
  cases ctx with
  | nil => rfl
  | root => simp [TXFromCtx, h2]
  | withValue p k v => simp [TXFromCtx, h2]

theorem TX.Begin_ok (o : Oracle) (w : World) (id : Nat)
    (h : o (.exec ("SAVEPOINT " ++ transactionKeyForNestedPoint (w.getTx id))) = none) :
    TX.Begin o w id =
      ((w.emit (.exec ("SAVEPOINT " ++ transactionKeyForNestedPoint (w.getTx id)))).setTx id
        { w.getTx id with transactionCount := (w.getTx id).transactionCount + 1 }, none) := by
  have hh : (w.emit (.exec ("SAVEPOINT " ++ transactionKeyForNestedPoint (w.getTx id)))).getTx id
      = w.getTx id := rfl
  simp [TX.Begin, TX.Exec, h, hh]

theorem TX.Commit_nested (o : Oracle) (w : World) (id : Nat)
    (h : 0 < (w.getTx id).transactionCount) :
    TX.Commit o w id =
      ((w.setTx id { w.getTx id with
          transactionCount := (w.getTx id).transactionCount - 1 }).emit
        (.exec ("RELEASE SAVEPOINT " ++ savePointName ((w.getTx id).transactionCount - 1))),
       o (.exec ("RELEASE SAVEPOINT " ++ savePointName ((w.getTx id).transactionCount - 1)))) := by
  simp [TX.Commit, h, TX.Exec, transactionKeyForNestedPoint, savePointName]

theorem TX.Commit_base (o : Oracle) (w : World) (id : Nat)
    (h : (w.getTx id).transactionCount ≤ 0) :
    TX.Commit o w id = (w.emit .commit, o .commit) := by
  simp [TX.Commit, Int.not_lt.mpr h]

theorem TX.Rollback_nested (o : Oracle) (w : World) (id : Nat)
    (h : 0 < (w.getTx id).transactionCount) :
    TX.Rollback o w id =
      ((w.setTx id { w.getTx id with
          transactionCount := (w.getTx id).transactionCount - 1 }).emit
        (.exec ("ROLLBACK TO SAVEPOINT " ++ savePointName ((w.getTx id).transactionCount - 1))),
       o (.exec ("ROLLBACK TO SAVEPOINT " ++ savePointName ((w.getTx id).transactionCount - 1)))) := by
  simp [TX.Rollback, h, TX.Exec, transactionKeyForNestedPoint, savePointName]

theorem TX.Rollback_base (o : Oracle) (w : World) (id : Nat)
    (h : (w.getTx id).transactionCount ≤ 0) :
    TX.Rollback o w id = (w.emit .rollback, o .rollback) := by
  simp [TX.Rollback, Int.not_lt.mpr h]

theorem emit_eq_emitAll (w : World) (s : Stmt) : w.emit s = w.emitAll [s] := rfl

theorem emitAll_emitAll (w : World) (l l' : List Stmt) :
    (w.emitAll l).emitAll l' = w.emitAll (l ++ l') := by
  simp [World.emitAll]

theorem setTx_emitAll (w : World) (id : Nat) (d : TXData) (l : List Stmt) :
    (w.setTx id d).emitAll l = (w.emitAll l).setTx id d := rfl

theorem getTx_emitAll (w : World) (id : Nat) (l : List Stmt) :
    (w.emitAll l).getTx id = w.getTx id := rfl

theorem emitAll_heap (w : World) (l : List Stmt) :
    (w.emitAll l).heap = w.heap := rfl

theorem emitAll_gen (w : World) (l : List Stmt) :
    (w.emitAll l).gen = w.gen := rfl

theorem emitAll_trace (w : World) (l : List Stmt) :
    (w.emitAll l).trace = w.trace ++ l := rfl

theorem runFn_ret (o : Oracle) (conf : DBConf) (e : Option Err) (w : World)
    (c : Ctx) (id : Nat) : runFn o conf (.ret e) w c id = (w, .value e) := rfl

theorem runFn_panics (o : Oracle) (conf : DBConf) (m : String) (w : World)
    (c : Ctx) (id : Nat) : runFn o conf (.panics m) w c id = (w, .panicked m) := rfl

theorem runFn_exec (o : Oracle) (conf : DBConf) (s : String) (k : Prog) (w : World)
    (c : Ctx) (id : Nat) :
    runFn o conf (.exec s k) w c id = runFn o conf k (w.emit (.exec s)) c id := rfl

theorem runFn_nest (o : Oracle) (conf : DBConf) (q : Prog) (w : World)
    (c : Ctx) (id : Nat) :
    runFn o conf (.nest q) w c id =
      ((coreTransaction o conf w c q).1, .value (coreTransaction o conf w c q).2) := rfl

theorem finalize_value_none (o : Oracle) (w : World) (id : Nat) :
    finalize o w id (.value none) = TX.Commit o w id := rfl

theorem finalize_value_some (o : Oracle) (w : World) (id : Nat) (e : Err) :
    finalize o w id (.value (some e)) =
      ((TX.Rollback o w id).1, some (((TX.Rollback o w id).2).getD e)) := by
  rcases h : TX.Rollback o w id with ⟨w1, e'⟩
  cases e' <;> simp [finalize, h]

theorem finalize_panicked (o : Oracle) (w : World) (id : Nat) (m : String) :
    finalize o w id (.panicked m) = finalize o w id (.value (some m)) := rfl

/-- Lemma: `Core.Transaction` on a non-nil context that carries a handle for the
manager's group delegates to `TX.Transaction` on that handle (after the
lookup has re-pointed the handle's context). -/
theorem coreTransactionWith_deleg (run : World → Ctx → Nat → World × Outcome)
    (o : Oracle) (conf : DBConf) (w : World) (ctx : Ctx) (id : Nat)
    (hnil : ctx ≠ Ctx.nil)
    (hval : ctx.value (transactionKeyForContext conf.group) = some (.txRef id)) :
    coreTransactionWith run o conf w ctx =
      txTransactionWith run o (w.setTx id { w.getTx id with ctx := ctx }) id ctx := by
  simp [coreTransactionWith, if_neg hnil, TXFromCtx_found w ctx conf.group id hnil hval]

/-- Lemma: `TX.Transaction` on a non-nil context that already carries the handle:
re-points the handle's context, emits the savepoint (here assumed to
succeed), increments the counter and hands the post-begin state to the
body, finishing with the deferred finalization. -/
theorem txTransactionWith_eq (run : World → Ctx → Nat → World × Outcome)
    (o : Oracle) (w : World) (id : Nat) (ctx : Ctx)
    (hid : id < w.heap.length) (hnil : ctx ≠ Ctx.nil)
    (hval : ctx.value (transactionKeyForContext (w.getTx id).group) =
      some (.txRef id))
    (hsp : o (spStmt (w.getTx id).transactionCount) = none) :
    txTransactionWith run o w id ctx =
      (fun r => finalize o r.1 id r.2)
        (run ((w.emitAll [spStmt (w.getTx id).transactionCount]).setTx id
                { w.getTx id with
                  ctx := ctx
                  transactionCount := (w.getTx id).transactionCount + 1 })
          ctx id) := by
  have hlen0 : id < (w.setTx id { w.getTx id with ctx := ctx }).heap.length := by
    simpa [setTx_heap_length] using hid
  have hg0 : (w.setTx id { w.getTx id with ctx := ctx }).getTx id =
      { w.getTx id with ctx := ctx } := getTx_setTx_self _ _ _ hid
  simp only [txTransactionWith, if_neg hnil, hg0]
  rw [TXFromCtx_found _ ctx _ id hnil (by simpa using hval)]
  simp only [hg0, setTx_setTx]
  have hg1 : ((w.setTx id { w.getTx id with ctx := ctx }).getTx id) =
      { w.getTx id with ctx := ctx } := hg0
  rw [TX.Begin_ok]
  · have hg2 : ∀ s : Stmt,
        (((w.setTx id { w.getTx id with ctx := ctx }).emit s).getTx id) =
          { w.getTx id with ctx := ctx } := fun s => hg0
    simp only [hg2, hg0]
    have heq : (((w.setTx id { w.getTx id with ctx := ctx }).emit
        (.exec ("SAVEPOINT " ++
          transactionKeyForNestedPoint { w.getTx id with ctx := ctx }))).setTx id
        { { w.getTx id with ctx := ctx } with
          transactionCount := { w.getTx id with ctx := ctx }.transactionCount + 1 }) =
        ((w.emitAll [spStmt (w.getTx id).transactionCount]).setTx id
          { w.getTx id with
            ctx := ctx
            transactionCount := (w.getTx id).transactionCount + 1 }) := by
      simp [World.emit, World.emitAll, World.setTx, List.set_set, spStmt,
        transactionKeyForNestedPoint, savePointName]
    rw [heq]
    have hctxeq : (((w.emitAll [spStmt (w.getTx id).transactionCount]).setTx id
        { w.getTx id with
          ctx := ctx
          transactionCount := (w.getTx id).transactionCount + 1 }).getTx id).ctx = ctx := by
      rw [getTx_setTx_self]
      simpa [emitAll_heap] using hid
    rw [hctxeq]
  · rw [hg0]
    simpa [spStmt, transactionKeyForNestedPoint, savePointName] using hsp

theorem getTx_emitAll_setTx (w : World) (l : List Stmt) (id : Nat) (d : TXData)
    (h : id < w.heap.length) : ((w.emitAll l).setTx id d).getTx id = d :=
  getTx_setTx_self _ _ _ (by simpa [emitAll_heap] using h)

theorem length_emitAll_setTx (w : World) (l : List Stmt) (id : Nat) (d : TXData) :
    (((w.emitAll l).setTx id d).heap).length = w.heap.length := by
  simp [setTx_heap_length, emitAll_heap]

theorem emit_emitAll_setTx (w : World) (l : List Stmt) (id : Nat) (d : TXData)
    (s : Stmt) : ((w.emitAll l).setTx id d).emit s = (w.emitAll (l ++ [s])).setTx id d := by
  rw [show ∀ (x : World), x.emit s = x.emitAll [s] from fun _ => rfl]
  rw [← setTx_emitAll, emitAll_emitAll, setTx_emitAll]

theorem setTx_emitAll_setTx (w : World) (l : List Stmt) (id : Nat) (d d' : TXData) :
    (((w.emitAll l).setTx id d).setTx id d') = (w.emitAll l).setTx id d' :=
  setTx_setTx _ _ _ _

theorem txTransaction_fold (o : Oracle) (conf : DBConf) (w : World) (id : Nat)
    (ctx : Ctx) (p : Prog) :
    txTransactionWith (fun w' c' id' => runFn o conf p w' c' id') o w id ctx =
      txTransaction o conf w id ctx p := rfl

theorem coreTransaction_fold (o : Oracle) (conf : DBConf) (w : World) (ctx : Ctx)
    (p : Prog) :
    coreTransactionWith (fun w' c' id' => runFn o conf p w' c' id') o conf w ctx =
      coreTransaction o conf w ctx p := rfl

/-- The full nested unit-of-work chain, every level succeeding, seen from
`TX.Transaction`: starting at counter `c`, it emits the savepoints for
counters `c, …, c+k` in order and releases them in reverse order, returns
a nil error, and restores the handle to counter `c` with its context
re-pointed. -/
theorem txChain_ok (o : Oracle) (conf : DBConf)
    (hsp : ∀ c : Int, o (spStmt c) = none)
    (hrel : ∀ c : Int, o (relStmt c) = none) :
    ∀ (k : Nat) (w : World) (id : Nat) (ctx : Ctx) (d : TXData),
      w.getTx id = d →
      id < w.heap.length →
      ctx ≠ Ctx.nil →
      ctx.value (transactionKeyForContext conf.group) = some (.txRef id) →
      d.group = conf.group →
      0 ≤ d.transactionCount →
      txTransaction o conf w id ctx (chain k) =
        ((w.emitAll (spList d.transactionCount (k + 1)
            ++ relList d.transactionCount (k + 1))).setTx id
          { d with ctx := ctx }, none) := by
  have hrel' : ∀ c : Int, o (.exec ("RELEASE SAVEPOINT " ++ savePointName c)) = none := hrel
  intro k
  induction k with
  | zero =>
    intro w id ctx d hd hid hnil hval hg hc
    rw [txTransaction,
      txTransactionWith_eq _ o w id ctx hid hnil (by rw [hd, hg]; exact hval)
        (by rw [hd]; exact hsp _)]
    rw [hd]
    simp only [chain, runFn_ret]
    rw [finalize_value_none]
    have hW3 : ((w.emitAll [spStmt d.transactionCount]).setTx id
        { d with ctx := ctx, transactionCount := d.transactionCount + 1 }).getTx id =
        { d with ctx := ctx, transactionCount := d.transactionCount + 1 } :=
      getTx_emitAll_setTx _ _ _ _ hid
    rw [TX.Commit_nested _ _ _ (by rw [hW3]; show 0 < d.transactionCount + 1; omega)]
    rw [hW3]
    have h1 : d.transactionCount + 1 - 1 = d.transactionCount := by omega
    simp only [setTx_emitAll_setTx, emit_emitAll_setTx]
    simp [h1, hrel', spList, relList, spStmt, relStmt]
  | succ m ih =>
    intro w id ctx d hd hid hnil hval hg hc
    rw [txTransaction,
      txTransactionWith_eq _ o w id ctx hid hnil (by rw [hd, hg]; exact hval)
        (by rw [hd]; exact hsp _)]
    rw [hd]
    simp only [chain, runFn_nest]
    have hW3 : ((w.emitAll [spStmt d.transactionCount]).setTx id
        { d with ctx := ctx, transactionCount := d.transactionCount + 1 }).getTx id =
        { d with ctx := ctx, transactionCount := d.transactionCount + 1 } :=
      getTx_emitAll_setTx _ _ _ _ hid
    have hW3len : id < ((w.emitAll [spStmt d.transactionCount]).setTx id
        { d with ctx := ctx, transactionCount := d.transactionCount + 1 }).heap.length := by
      rw [length_emitAll_setTx]; exact hid
    have hR : coreTransaction o conf
        ((w.emitAll [spStmt d.transactionCount]).setTx id
          { d with ctx := ctx, transactionCount := d.transactionCount + 1 }) ctx (chain m) =
        ((w.emitAll (spStmt d.transactionCount ::
            (spList (d.transactionCount + 1) (m + 1)
              ++ relList (d.transactionCount + 1) (m + 1)))).setTx id
          { d with ctx := ctx, transactionCount := d.transactionCount + 1 }, none) := by
      rw [coreTransaction, coreTransactionWith_deleg _ o conf _ ctx id hnil hval]
      rw [hW3]
      rw [txTransaction_fold]
      rw [ih _ id ctx { d with ctx := ctx, transactionCount := d.transactionCount + 1 }
        (by rw [setTx_emitAll_setTx]; exact getTx_emitAll_setTx _ _ _ _ hid)
        (by rw [setTx_emitAll_setTx, length_emitAll_setTx]; exact hid)
        hnil hval hg (by show 0 ≤ d.transactionCount + 1; omega)]
      simp only [setTx_emitAll_setTx, setTx_emitAll, emitAll_emitAll, setTx_setTx]
      simp
    rw [hR]
    simp only []
    rw [finalize_value_none]
    have hWr : ((w.emitAll (spStmt d.transactionCount ::
        (spList (d.transactionCount + 1) (m + 1)
          ++ relList (d.transactionCount + 1) (m + 1)))).setTx id
        { d with ctx := ctx, transactionCount := d.transactionCount + 1 }).getTx id =
        { d with ctx := ctx, transactionCount := d.transactionCount + 1 } :=
      getTx_emitAll_setTx _ _ _ _ hid
    rw [TX.Commit_nested _ _ _ (by rw [hWr]; show 0 < d.transactionCount + 1; omega)]
    rw [hWr]
    have h1 : d.transactionCount + 1 - 1 = d.transactionCount := by omega
    simp only [setTx_emitAll_setTx, emit_emitAll_setTx]
    simp [h1, hrel', spList, relList, spStmt, relStmt]

/-- On the empty world with the base context, `Core.Transaction` takes the
fresh path: physical `BEGIN`, allocation of handle `0`, injection into the
context, then the body runs under the deferred finalization. -/
theorem coreTransaction_fresh (o : Oracle) (hb : o .begin = none) (p : Prog) :
    coreTransaction o conf0 W0 Ctx.root p =
      (fun r => finalize o r.1 0 r.2)
        (runFn o conf0 p worldAfterBegin ctxAfterBegin 0) := by
  rw [coreTransaction]
  simp [coreTransactionWith, TXFromCtx, doBeginCtx, WithTX, foundGroup,
    World.getTx, World.setTx, World.emit, Ctx.value, transactionKeyForContext,
    contextTransactionKeyName, transactionIdForLoggerCtx, conf0, W0, hb,
    ctxAfterBegin, txAfterBegin, worldAfterBegin, List.getD]

/-- The complete run of the depth-`k+1` all-success nesting from the empty
world: one `BEGIN`, the savepoints `0..k-1` in order, their releases in
reverse order, one `COMMIT`; nil error; handle restored to counter 0. -/
theorem coreChain_ok (k : Nat) :
    coreTransaction allOk conf0 W0 Ctx.root (chain k) =
      (⟨[txAfterBegin],
        Stmt.begin :: ((spList 0 k ++ relList 0 k) ++ [Stmt.commit]), 2⟩, none) := by
  cases k with
  | zero => decide
  | succ m =>
    rw [coreTransaction_fresh allOk rfl]
    simp only [chain, runFn_nest]
    rw [coreTransaction, coreTransactionWith_deleg _ allOk conf0 _ _ 0 (by decide)
      (by decide)]
    rw [txTransaction_fold]
    rw [txChain_ok allOk conf0 (fun c => rfl) (fun c => rfl) m
      (worldAfterBegin.setTx 0 { worldAfterBegin.getTx 0 with ctx := ctxAfterBegin })
      0 ctxAfterBegin txAfterBegin rfl (by decide) (by decide) (by decide) rfl
      (by decide)]
    simp only []
    rw [finalize_value_none]
    rw [TX.Commit_base _ _ _ (by
      rw [getTx_emitAll_setTx _ _ _ _ (by decide)]
      decide)]
    simp [World.emit, World.emitAll, World.setTx, worldAfterBegin, txAfterBegin, allOk]

theorem spList_countP_commit (c : Int) (k : Nat) :
    (spList c k).countP isCommitStmt = 0 := by
  induction k generalizing c with
  | zero => rfl
  | succ m ih => simp [spList, List.countP_cons, isCommitStmt, spStmt, ih]

theorem relList_countP_commit (c : Int) (k : Nat) :
    (relList c k).countP isCommitStmt = 0 := by
  induction k generalizing c with
  | zero => rfl
  | succ m ih => simp [relList, List.countP_cons, List.countP_append,
      isCommitStmt, relStmt, ih]

theorem relList_length (c : Int) (k : Nat) : (relList c k).length = k := by
  induction k generalizing c with
  | zero => rfl
  | succ m ih => simp [relList, ih]

theorem releaseOf_spStmt (c : Int) : releaseOf (spStmt c) = relStmt c := by
  simp only [releaseOf, spStmt, relStmt]
  rw [← String.append_assoc]
  rfl

theorem rollbackToOf_spStmt (c : Int) : rollbackToOf (spStmt c) = rbToStmt c := by
  simp only [rollbackToOf, spStmt, rbToStmt]
  rw [← String.append_assoc]
  rfl

/-- Each release names the savepoint of the matching `SAVEPOINT`, in strict
reverse (LIFO) order of creation. -/
theorem relList_eq_reverse_map (c : Int) (k : Nat) :
    relList c k = (spList c k).reverse.map releaseOf := by
  induction k generalizing c with
  | zero => rfl
  | succ m ih => simp [relList, spList, ih, releaseOf_spStmt]

theorem rbList_eq_reverse_map (c : Int) (k : Nat) :
    rbList c k = (spList c k).reverse.map rollbackToOf := by
  induction k generalizing c with
  | zero => rfl
  | succ m ih => simp [rbList, spList, ih, rollbackToOf_spStmt]

/-- C1 (P1, single physical commit): a nesting of `runUnitOfWork` calls of
depth `k + 1` on group `"default"` in one context lineage, every level's
body returning nil and no statement failing (`allOk`), returns a nil
error; the emitted statement sequence is exactly one physical `BEGIN`, the
savepoints in creation order, their releases, and exactly one physical
`COMMIT`; there are exactly `k` (that is, depth minus one) `RELEASE
SAVEPOINT` statements, and they release the created savepoints by name in
strict reverse (LIFO) order of creation. -/
theorem nested_success_single_commit (k : Nat) :
    (coreTransaction allOk conf0 W0 Ctx.root (chain k)).2 = none ∧
    (coreTransaction allOk conf0 W0 Ctx.root (chain k)).1.trace =
      Stmt.begin :: ((spList 0 k ++ relList 0 k) ++ [Stmt.commit]) ∧
    ((coreTransaction allOk conf0 W0 Ctx.root (chain k)).1.trace.countP
      isCommitStmt) = 1 ∧
    (relList 0 k).length = k ∧
    relList 0 k = ((spList 0 k).reverse.map releaseOf) := by
  rw [coreChain_ok]
  refine ⟨rfl, rfl, ?_, relList_length 0 k, relList_eq_reverse_map 0 k⟩
  simp [List.countP_cons, List.countP_append, spList_countP_commit,
    relList_countP_commit, isCommitStmt]

/-- The last error produced by the rollback statements, or the original
error if every rollback returned nil. -/
theorem filterMap_getLastD_concat (l : List Stmt) (s : Stmt) (o : Oracle) (E : Err) :
    ((l ++ [s]).filterMap o).getLastD E = (o s).getD ((l.filterMap o).getLastD E) := by
  rw [List.filterMap_append]
  cases h : o s with
  | none => simp [h]
  | some e => simp [h, List.getLastD_concat]

/-- The nested unit-of-work chain whose innermost body returns error `E`,
with all savepoint statements succeeding, seen from `TX.Transaction`:
starting at counter `c` it emits the savepoints `c, …, c+k` in order, then
rolls back to them in reverse order; the returned error is `E` unless some
rollback statement failed, in which case it is the error of the last
failing rollback statement; the handle is restored to counter `c`. -/
theorem txChain_err (o : Oracle) (conf : DBConf) (E : Err)
    (hsp : ∀ c : Int, o (spStmt c) = none) :
    ∀ (k : Nat) (w : World) (id : Nat) (ctx : Ctx) (d : TXData),
      w.getTx id = d →
      id < w.heap.length →
      ctx ≠ Ctx.nil →
      ctx.value (transactionKeyForContext conf.group) = some (.txRef id) →
      d.group = conf.group →
      0 ≤ d.transactionCount →
      txTransaction o conf w id ctx (chainE E k) =
        ((w.emitAll (spList d.transactionCount (k + 1)
            ++ rbList d.transactionCount (k + 1))).setTx id
          { d with ctx := ctx },
         some (((rbList d.transactionCount (k + 1)).filterMap o).getLastD E)) := by
  intro k
  induction k with
  | zero =>
    intro w id ctx d hd hid hnil hval hg hc
    rw [txTransaction,
      txTransactionWith_eq _ o w id ctx hid hnil (by rw [hd, hg]; exact hval)
        (by rw [hd]; exact hsp _)]
    rw [hd]
    simp only [chainE, runFn_ret]
    rw [finalize_value_some]
    have hW3 : ((w.emitAll [spStmt d.transactionCount]).setTx id
        { d with ctx := ctx, transactionCount := d.transactionCount + 1 }).getTx id =
        { d with ctx := ctx, transactionCount := d.transactionCount + 1 } :=
      getTx_emitAll_setTx _ _ _ _ hid
    rw [TX.Rollback_nested _ _ _ (by rw [hW3]; show 0 < d.transactionCount + 1; omega)]
    rw [hW3]
    have h1 : d.transactionCount + 1 - 1 = d.transactionCount := by omega
    simp only [setTx_emitAll_setTx, emit_emitAll_setTx]
    cases ho : o (.exec ("ROLLBACK TO SAVEPOINT " ++ savePointName d.transactionCount)) with
    | none =>
      simp [h1, spList, rbList, spStmt, rbToStmt, ho]
    | some e =>
      simp [h1, spList, rbList, spStmt, rbToStmt, ho]
  | succ m ih =>
    intro w id ctx d hd hid hnil hval hg hc
    rw [txTransaction,
      txTransactionWith_eq _ o w id ctx hid hnil (by rw [hd, hg]; exact hval)
        (by rw [hd]; exact hsp _)]
    rw [hd]
    simp only [chainE, runFn_nest]
    have hW3 : ((w.emitAll [spStmt d.transactionCount]).setTx id
        { d with ctx := ctx, transactionCount := d.transactionCount + 1 }).getTx id =
        { d with ctx := ctx, transactionCount := d.transactionCount + 1 } :=
      getTx_emitAll_setTx _ _ _ _ hid
    have hR : coreTransaction o conf
        ((w.emitAll [spStmt d.transactionCount]).setTx id
          { d with ctx := ctx, transactionCount := d.transactionCount + 1 }) ctx
          (chainE E m) =
        ((w.emitAll (spStmt d.transactionCount ::
            (spList (d.transactionCount + 1) (m + 1)
              ++ rbList (d.transactionCount + 1) (m + 1)))).setTx id
          { d with ctx := ctx, transactionCount := d.transactionCount + 1 },
         some (((rbList (d.transactionCount + 1) (m + 1)).filterMap o).getLastD E)) := by
      rw [coreTransaction, coreTransactionWith_deleg _ o conf _ ctx id hnil hval]
      rw [hW3]
      rw [txTransaction_fold]
      rw [ih _ id ctx { d with ctx := ctx, transactionCount := d.transactionCount + 1 }
        (by rw [setTx_emitAll_setTx]; exact getTx_emitAll_setTx _ _ _ _ hid)
        (by rw [setTx_emitAll_setTx, length_emitAll_setTx]; exact hid)
        hnil hval hg (by show 0 ≤ d.transactionCount + 1; omega)]
      simp only [setTx_emitAll_setTx, setTx_emitAll, emitAll_emitAll, setTx_setTx]
      simp
    rw [hR]
    simp only []
    rw [finalize_value_some]
    have hWr : ((w.emitAll (spStmt d.transactionCount ::
        (spList (d.transactionCount + 1) (m + 1)
          ++ rbList (d.transactionCount + 1) (m + 1)))).setTx id
        { d with ctx := ctx, transactionCount := d.transactionCount + 1 }).getTx id =
        { d with ctx := ctx, transactionCount := d.transactionCount + 1 } :=
      getTx_emitAll_setTx _ _ _ _ hid
    rw [TX.Rollback_nested _ _ _ (by rw [hWr]; show 0 < d.transactionCount + 1; omega)]
    rw [hWr]
    have h1 : d.transactionCount + 1 - 1 = d.transactionCount := by omega
    simp only [setTx_emitAll_setTx, emit_emitAll_setTx]
    have hcat : rbList d.transactionCount (m + 1 + 1) =
        rbList (d.transactionCount + 1) (m + 1) ++ [rbToStmt d.transactionCount] := rfl
    rw [hcat, filterMap_getLastD_concat]
    cases ho : o (.exec ("ROLLBACK TO SAVEPOINT " ++ savePointName d.transactionCount)) with
    | none =>
      simp [h1, spList, rbList, spStmt, rbToStmt, ho]
    | some e =>
      simp [h1, spList, rbList, spStmt, rbToStmt, ho]

theorem rbList_length (c : Int) (k : Nat) : (rbList c k).length = k := by
  induction k generalizing c with
  | zero => rfl
  | succ m ih => simp [rbList, ih]

/-- The complete run of the depth-`k+1` nesting whose innermost body fails
with `E`, from the empty world: `BEGIN`, savepoints in order, rollbacks to
them in reverse order, physical `ROLLBACK`; the returned error is the last
failing rollback statement's error, or `E` when none failed. -/
theorem coreChain_err (k : Nat) (E : Err) (o : Oracle)
    (hb : o .begin = none)
    (hsp : ∀ c : Int, o (spStmt c) = none) :
    coreTransaction o conf0 W0 Ctx.root (chainE E k) =
      (⟨[txAfterBegin],
        Stmt.begin :: ((spList 0 k ++ rbList 0 k) ++ [Stmt.rollback]), 2⟩,
       some (((rbList 0 k ++ [Stmt.rollback]).filterMap o).getLastD E)) := by
  cases k with
  | zero =>
    rw [coreTransaction_fresh o hb]
    simp only [chainE, runFn_ret]
    rw [finalize_value_some]
    rw [TX.Rollback_base _ _ _ (by decide)]
    rw [filterMap_getLastD_concat]
    cases ho : o .rollback with
    | none => simp [World.emit, worldAfterBegin, spList, rbList, ho]
    | some e => simp [World.emit, worldAfterBegin, spList, rbList, ho]
  | succ m =>
    rw [coreTransaction_fresh o hb]
    simp only [chainE, runFn_nest]
    rw [coreTransaction, coreTransactionWith_deleg _ o conf0 _ _ 0 (by decide)
      (by decide)]
    rw [txTransaction_fold]
    rw [txChain_err o conf0 E hsp m
      (worldAfterBegin.setTx 0 { worldAfterBegin.getTx 0 with ctx := ctxAfterBegin })
      0 ctxAfterBegin txAfterBegin rfl (by decide) (by decide) (by decide) rfl
      (by decide)]
    simp only []
    rw [finalize_value_some]
    rw [TX.Rollback_base _ _ _ (by
      rw [getTx_emitAll_setTx _ _ _ _ (by decide)]
      decide)]
    rw [filterMap_getLastD_concat]
    cases ho : o .rollback with
    | none =>
      simp [World.emit, World.emitAll, World.setTx, worldAfterBegin, txAfterBegin, ho]
    | some e =>
      simp [World.emit, World.emitAll, World.setTx, worldAfterBegin, txAfterBegin, ho]

/-- C2 (P2, rollback on inner failure): in a depth-`k+1` nesting whose
innermost body returns the error `E` (physical `BEGIN` and every savepoint
statement succeeding), every enclosing level rolls back — the `k` nested
levels via `ROLLBACK TO SAVEPOINT` in strict reverse creation order, the
outermost via the physical `ROLLBACK` — and the error returned to the
top-level caller is `E`, unless some rollback statement itself returned a
non-nil error, in which case the last such rollback error is returned
instead. -/
theorem nested_failure_rollback_propagation (k : Nat) (E : Err) (o : Oracle)
    (hb : o .begin = none) (hsp : ∀ c : Int, o (spStmt c) = none) :
    (coreTransaction o conf0 W0 Ctx.root (chainE E k)).1.trace =
      Stmt.begin :: ((spList 0 k ++ rbList 0 k) ++ [Stmt.rollback]) ∧
    (coreTransaction o conf0 W0 Ctx.root (chainE E k)).2 =
      some (((rbList 0 k ++ [Stmt.rollback]).filterMap o).getLastD E) ∧
    (rbList 0 k).length = k ∧
    rbList 0 k = ((spList 0 k).reverse.map rollbackToOf) ∧
    ((∀ s, o s = none) →
      (coreTransaction o conf0 W0 Ctx.root (chainE E k)).2 = some E) := by
  rw [coreChain_err k E o hb hsp]
  refine ⟨rfl, rfl, rbList_length 0 k, rbList_eq_reverse_map 0 k, ?_⟩
  intro hall
  have : ((rbList 0 k ++ [Stmt.rollback]).filterMap o) = [] := by
    rw [List.filterMap_eq_nil_iff]
    intro a _
    exact hall a
  simp [this]

/-- Counterexample to C3 as stated: in Scenario B (outer unit of work whose
body runs one inner unit of work that executes one statement and returns
error `"E"`, no statement failing) the emitted sequence names the savepoint
`transaction0` — the code derives the name from the counter value before
the increment, which is 0 — not `transaction1` as the spec's Scenario B
claims; the final error is `E`. -/
theorem scenarioB_savepoint_name_counterexample :
    (coreTransaction allOk conf0 W0 Ctx.root
        (.nest (.exec "UPDATE t SET x=1" (.ret (some "E"))))).1.trace =
      [Stmt.begin, .exec "SAVEPOINT transaction0", .exec "UPDATE t SET x=1",
       .exec "ROLLBACK TO SAVEPOINT transaction0", .rollback] ∧
    (coreTransaction allOk conf0 W0 Ctx.root
        (.nest (.exec "UPDATE t SET x=1" (.ret (some "E"))))).1.trace ≠
      [Stmt.begin, .exec "SAVEPOINT transaction1", .exec "UPDATE t SET x=1",
       .exec "ROLLBACK TO SAVEPOINT transaction1", .rollback] ∧
    (coreTransaction allOk conf0 W0 Ctx.root
        (.nest (.exec "UPDATE t SET x=1" (.ret (some "E"))))).2 = some "E" := by
  refine ⟨by decide, by decide, by decide⟩

/-- C3 amended (Scenario B): an outer unit of work whose body runs an inner
unit of work on the same group, the inner body executing the statement `s`
and returning error `E`, with no statement failing, emits exactly
`BEGIN, SAVEPOINT transaction0, s, ROLLBACK TO SAVEPOINT transaction0,
ROLLBACK`, and the outer call returns exactly `E` (the savepoint name uses
the pre-increment counter value 0, not 1). -/
theorem scenarioB_amended (s : String) (E : Err) :
    coreTransaction allOk conf0 W0 Ctx.root (.nest (.exec s (.ret (some E)))) =
      (⟨[txAfterBegin],
        [Stmt.begin, spStmt 0, .exec s, rbToStmt 0, Stmt.rollback], 2⟩,
       some E) := by
  rw [coreTransaction_fresh allOk rfl]
  simp only [runFn_nest]
  rw [coreTransaction, coreTransactionWith_deleg _ allOk conf0 _ _ 0 (by decide)
    (by decide)]
  rw [txTransaction_fold]
  rw [txTransaction,
    txTransactionWith_eq _ allOk _ 0 ctxAfterBegin (by decide) (by decide)
      (by decide) rfl]
  simp only [runFn_exec, runFn_ret]
  rw [finalize_value_some]
  rw [TX.Rollback_nested _ _ _ (by show (0:Int) < 1; decide)]
  rw [finalize_value_some]
  rw [TX.Rollback_base _ _ _ (by show (1:Int) - 1 ≤ 0; decide)]
  simp [World.emit, World.emitAll, World.setTx, World.getTx, worldAfterBegin,
    txAfterBegin, allOk, spStmt, rbToStmt, savePointName, QuoteWord,
    transactionPointerName, List.getD]

/-- C7: a unit of work that owns its handle (fresh context) whose body
terminates by a panic with payload `m`: the panic is recovered and
converted into an error whose message is exactly the payload, the handle's
`Rollback` runs exactly once (one physical `ROLLBACK`, the counter being
0), and the call returns that converted error since the rollback
succeeded. -/
theorem panic_recovered_rollback_once (m : String) :
    coreTransaction allOk conf0 W0 Ctx.root (.panics m) =
      (⟨[txAfterBegin], [Stmt.begin, Stmt.rollback], 2⟩, some m) ∧
    ((coreTransaction allOk conf0 W0 Ctx.root (.panics m)).1.trace.countP
      isRollbackStmt) = 1 := by
  have h : coreTransaction allOk conf0 W0 Ctx.root (.panics m) =
      (⟨[txAfterBegin], [Stmt.begin, Stmt.rollback], 2⟩, some m) := by
    rw [coreTransaction_fresh allOk rfl]
    simp only [runFn_panics]
    rw [finalize_panicked, finalize_value_some]
    rw [TX.Rollback_base _ _ _ (by decide)]
    simp [World.emit, worldAfterBegin, allOk]
  exact ⟨h, by rw [h]; rfl⟩

theorem stepExt_refl (w : World) (id : Nat) : StepExt w w id 0 :=
  ⟨⟨[], by simp, rfl⟩, rfl, by omega, rfl, rfl, rfl⟩

theorem stepExt_trans {w w' w'' : World} {id : Nat} {a b : Int}
    (h1 : StepExt w w' id a) (h2 : StepExt w' w'' id b) :
    StepExt w w'' id (a + b) := by
  obtain ⟨⟨t1, ht1, hc1⟩, hl1, hn1, hg1, hi1, hd1⟩ := h1
  obtain ⟨⟨t2, ht2, hc2⟩, hl2, hn2, hg2, hi2, hd2⟩ := h2
  exact ⟨⟨t1 ++ t2, by rw [ht2, ht1, List.append_assoc],
      by simp [List.countP_append, hc1, hc2]⟩,
    by rw [hl2, hl1], by rw [hn2, hn1]; ring, by rw [hg2, hg1],
    by rw [hi2, hi1], by rw [hd2, hd1]⟩

theorem stepExt_emit_exec (w : World) (s : String) (id : Nat) :
    StepExt w (w.emit (.exec s)) id 0 :=
  ⟨⟨[.exec s], rfl, by simp [isPhysicalStmt]⟩, rfl,
    by show (w.getTx id).transactionCount = (w.getTx id).transactionCount + 0; omega,
    rfl, rfl, rfl⟩

theorem stepExt_setTx_ctx (w : World) (id : Nat) (x : Ctx) (h : id < w.heap.length) :
    StepExt w (w.setTx id { w.getTx id with ctx := x }) id 0 := by
  have hg := getTx_setTx_self w id { w.getTx id with ctx := x } h
  exact ⟨⟨[], by simp [World.setTx], rfl⟩, setTx_heap_length w id _,
    by rw [hg]
       show (w.getTx id).transactionCount = (w.getTx id).transactionCount + 0
       omega,
    by rw [hg], by rw [hg], by rw [hg]⟩

/-- A successful nested `Begin`: one savepoint statement, counter `+1`. -/
theorem stepExt_begin (w : World) (id : Nat) (h : id < w.heap.length)
    (sp : String) :
    StepExt w ((w.emit (.exec sp)).setTx id
      { (w.emit (.exec sp)).getTx id with
        transactionCount := ((w.emit (.exec sp)).getTx id).transactionCount + 1 })
      id 1 := by
  have hlen : id < ((w.emit (.exec sp)).heap).length := h
  have hg := getTx_setTx_self (w.emit (.exec sp)) id
    { (w.emit (.exec sp)).getTx id with
      transactionCount := ((w.emit (.exec sp)).getTx id).transactionCount + 1 } hlen
  have hge : (w.emit (.exec sp)).getTx id = w.getTx id := rfl
  refine ⟨⟨[.exec sp], by simp [World.emit, World.setTx], by simp [isPhysicalStmt]⟩,
    ?_, ?_, ?_, ?_, ?_⟩
  · simp [setTx_heap_length, World.emit]
  · rw [hg, hge]
  · rw [hg, hge]
  · rw [hg, hge]
  · rw [hg, hge]

/-- Finalization of a delegated level (counter positive): one nested
release or rollback-to statement, counter `-1`, never a physical
statement. -/
theorem stepExt_finalize_nested (o : Oracle) (w : World) (id : Nat) (out : Outcome)
    (hpos : 0 < (w.getTx id).transactionCount) (hid : id < w.heap.length) :
    StepExt w (finalize o w id out).1 id (-1) := by
  have hg := getTx_setTx_self w id
    { w.getTx id with transactionCount := (w.getTx id).transactionCount - 1 } hid
  have key : ∀ (pre : String),
      StepExt w ((w.setTx id { w.getTx id with
          transactionCount := (w.getTx id).transactionCount - 1 }).emit
        (.exec (pre ++ savePointName ((w.getTx id).transactionCount - 1)))) id (-1) := by
    intro pre
    refine ⟨⟨[.exec (pre ++ savePointName ((w.getTx id).transactionCount - 1))],
      by simp [World.emit, World.setTx], by simp [isPhysicalStmt]⟩, ?_, ?_, ?_, ?_, ?_⟩
    · simp [setTx_heap_length, World.emit]
    · rw [show ∀ (x : World) (s : Stmt), (x.emit s).getTx id = x.getTx id
        from fun _ _ => rfl, hg]
      show (w.getTx id).transactionCount - 1 = (w.getTx id).transactionCount + -1
      omega
    · rw [show ∀ (x : World) (s : Stmt), (x.emit s).getTx id = x.getTx id
        from fun _ _ => rfl, hg]
    · rw [show ∀ (x : World) (s : Stmt), (x.emit s).getTx id = x.getTx id
        from fun _ _ => rfl, hg]
    · rw [show ∀ (x : World) (s : Stmt), (x.emit s).getTx id = x.getTx id
        from fun _ _ => rfl, hg]
  cases out with
  | value e =>
    cases e with
    | none =>
      rw [finalize_value_none, TX.Commit_nested o w id hpos]
      exact key "RELEASE SAVEPOINT "
    | some e0 =>
      rw [finalize_value_some, TX.Rollback_nested o w id hpos]
      exact key "ROLLBACK TO SAVEPOINT "
  | panicked m =>
    rw [finalize_panicked, finalize_value_some, TX.Rollback_nested o w id hpos]
    exact key "ROLLBACK TO SAVEPOINT "

theorem TX.Begin_fail (o : Oracle) (w : World) (id : Nat) (err : Err)
    (h : o (.exec ("SAVEPOINT " ++ transactionKeyForNestedPoint (w.getTx id))) =
      some err) :
    TX.Begin o w id =
      (w.emit (.exec ("SAVEPOINT " ++ transactionKeyForNestedPoint (w.getTx id))),
       some err) := by
  simp [TX.Begin, TX.Exec, h]

/-- Lemma: `TX.Transaction` when the nested `SAVEPOINT` statement itself fails:
the error is returned before the body runs, the counter untouched. -/
theorem txTransactionWith_eq_fail (run : World → Ctx → Nat → World × Outcome)
    (o : Oracle) (w : World) (id : Nat) (ctx : Ctx) (err : Err)
    (hid : id < w.heap.length) (hnil : ctx ≠ Ctx.nil)
    (hval : ctx.value (transactionKeyForContext (w.getTx id).group) =
      some (.txRef id))
    (hsp : o (spStmt (w.getTx id).transactionCount) = some err) :
    txTransactionWith run o w id ctx =
      ((w.setTx id { w.getTx id with ctx := ctx }).emit
        (spStmt (w.getTx id).transactionCount), some err) := by
  have hg0 : (w.setTx id { w.getTx id with ctx := ctx }).getTx id =
      { w.getTx id with ctx := ctx } := getTx_setTx_self _ _ _ hid
  simp only [txTransactionWith, if_neg hnil, hg0]
  rw [TXFromCtx_found _ ctx _ id hnil (by simpa using hval)]
  simp only [hg0, setTx_setTx]
  rw [TX.Begin_fail o _ id err (by
    rw [hg0]
    simpa [spStmt, transactionKeyForNestedPoint, savePointName] using hsp)]
  rw [hg0]
  simp [spStmt, transactionKeyForNestedPoint, savePointName]

/-- A delegated `TX.Transaction` call makes no physical statement and
restores the handle, given that the body does the same. -/
theorem txDeleg_noPhys (o : Oracle) (conf : DBConf) (p : Prog)
    (hA : ∀ (w : World) (ctx : Ctx) (id : Nat), CtxInv conf w ctx id →
      StepExt w (runFn o conf p w ctx id).1 id 0) :
    ∀ (w : World) (ctx : Ctx) (id : Nat), CtxInv conf w ctx id →
      StepExt w (txTransaction o conf w id ctx p).1 id 0 := by
  intro w ctx id hinv
  obtain ⟨hnil, hval, hid, hg, hc⟩ := hinv
  have hval' : ctx.value (transactionKeyForContext (w.getTx id).group) =
      some (.txRef id) := by rw [hg]; exact hval
  cases ho : o (spStmt (w.getTx id).transactionCount) with
  | some err =>
    rw [txTransaction, txTransactionWith_eq_fail _ o w id ctx err hid hnil hval' ho]
    have h1 := stepExt_setTx_ctx w id ctx hid
    have h2 := stepExt_emit_exec (w.setTx id { w.getTx id with ctx := ctx })
      ("SAVEPOINT " ++ savePointName (w.getTx id).transactionCount) id
    have h3 := stepExt_trans h1 h2
    simpa [spStmt] using h3
  | none =>
    rw [txTransaction, txTransactionWith_eq _ o w id ctx hid hnil hval' ho]
    have hW3get : ((w.emitAll [spStmt (w.getTx id).transactionCount]).setTx id
        { w.getTx id with
          ctx := ctx
          transactionCount := (w.getTx id).transactionCount + 1 }).getTx id =
        { w.getTx id with
          ctx := ctx
          transactionCount := (w.getTx id).transactionCount + 1 } :=
      getTx_emitAll_setTx _ _ _ _ hid
    have hW3len : id < ((w.emitAll [spStmt (w.getTx id).transactionCount]).setTx id
        { w.getTx id with
          ctx := ctx
          transactionCount := (w.getTx id).transactionCount + 1 }).heap.length := by
      rw [length_emitAll_setTx]; exact hid
    have hw3 : StepExt w ((w.emitAll [spStmt (w.getTx id).transactionCount]).setTx id
        { w.getTx id with
          ctx := ctx
          transactionCount := (w.getTx id).transactionCount + 1 }) id 1 := by
      refine ⟨⟨[spStmt (w.getTx id).transactionCount],
        by simp [World.emitAll, World.setTx], by simp [isPhysicalStmt, spStmt]⟩,
        ?_, ?_, ?_, ?_, ?_⟩
      · rw [length_emitAll_setTx]
      · rw [hW3get]
      · rw [hW3get]
      · rw [hW3get]
      · rw [hW3get]
    have hinv3 : CtxInv conf ((w.emitAll [spStmt (w.getTx id).transactionCount]).setTx id
        { w.getTx id with
          ctx := ctx
          transactionCount := (w.getTx id).transactionCount + 1 }) ctx id := by
      refine ⟨hnil, hval, hW3len, ?_, ?_⟩
      · rw [hW3get]; exact hg
      · rw [hW3get]; show 0 ≤ (w.getTx id).transactionCount + 1; omega
    have hrun := hA _ ctx id hinv3
    have hpos : 0 < ((runFn o conf p
        ((w.emitAll [spStmt (w.getTx id).transactionCount]).setTx id
          { w.getTx id with
            ctx := ctx
            transactionCount := (w.getTx id).transactionCount + 1 }) ctx id).1.getTx
        id).transactionCount := by
      have := hrun.2.2.1
      rw [hW3get] at this
      rw [this]
      show 0 < (w.getTx id).transactionCount + 1 + 0
      omega
    have hidr : id < (runFn o conf p
        ((w.emitAll [spStmt (w.getTx id).transactionCount]).setTx id
          { w.getTx id with
            ctx := ctx
            transactionCount := (w.getTx id).transactionCount + 1 }) ctx id).1.heap.length := by
      rw [hrun.2.1]
      exact hW3len
    have hfin := stepExt_finalize_nested o _ id (runFn o conf p
        ((w.emitAll [spStmt (w.getTx id).transactionCount]).setTx id
          { w.getTx id with
            ctx := ctx
            transactionCount := (w.getTx id).transactionCount + 1 }) ctx id).2 hpos hidr
    have hall := stepExt_trans (stepExt_trans hw3 hrun) hfin
    simpa using hall

/-- A delegated `Core.Transaction` call makes no physical statement and
restores the handle, given that the body does the same. -/
theorem coreDeleg_noPhys (o : Oracle) (conf : DBConf) (p : Prog)
    (hB : ∀ (w : World) (ctx : Ctx) (id : Nat), CtxInv conf w ctx id →
      StepExt w (txTransaction o conf w id ctx p).1 id 0) :
    ∀ (w : World) (ctx : Ctx) (id : Nat), CtxInv conf w ctx id →
      StepExt w (coreTransaction o conf w ctx p).1 id 0 := by
  intro w ctx id hinv
  obtain ⟨hnil, hval, hid, hg, hc⟩ := hinv
  rw [coreTransaction, coreTransactionWith_deleg _ o conf w ctx id hnil hval,
    txTransaction_fold]
  have h1 := stepExt_setTx_ctx w id ctx hid
  have hg1 : (w.setTx id { w.getTx id with ctx := ctx }).getTx id =
      { w.getTx id with ctx := ctx } := getTx_setTx_self _ _ _ hid
  have hinv1 : CtxInv conf (w.setTx id { w.getTx id with ctx := ctx }) ctx id := by
    refine ⟨hnil, hval, by rw [setTx_heap_length]; exact hid, ?_, ?_⟩
    · rw [hg1]; exact hg
    · rw [hg1]; show 0 ≤ (w.getTx id).transactionCount; exact hc
  have h2 := hB _ ctx id hinv1
  simpa using stepExt_trans h1 h2

/-- Any unit-of-work body run in delegation position makes no physical
statement and restores the handle. -/
theorem runFn_noPhys (o : Oracle) (conf : DBConf) :
    ∀ (p : Prog) (w : World) (ctx : Ctx) (id : Nat), CtxInv conf w ctx id →
      StepExt w (runFn o conf p w ctx id).1 id 0 := by
  intro p
  induction p with
  | ret e =>
    intro w ctx id _
    exact stepExt_refl w id
  | panics m =>
    intro w ctx id _
    exact stepExt_refl w id
  | exec s k ih =>
    intro w ctx id h
    rw [runFn_exec]
    have h1 := stepExt_emit_exec w s id
    have hinv1 : CtxInv conf (w.emit (.exec s)) ctx id := h
    have h2 := ih (w.emit (.exec s)) ctx id hinv1
    simpa using stepExt_trans h1 h2
  | nest q ih =>
    intro w ctx id h
    have := coreDeleg_noPhys o conf q (txDeleg_noPhys o conf q ih) w ctx id h
    simpa [runFn_nest] using this

/-- Delegation, top level: `Core.Transaction` called with a context that
carries a handle of its group never emits a physical statement and only
transiently changes the nesting counter. -/
theorem coreTransaction_noPhys (o : Oracle) (conf : DBConf) (p : Prog)
    (w : World) (ctx : Ctx) (id : Nat) (h : CtxInv conf w ctx id) :
    StepExt w (coreTransaction o conf w ctx p).1 id 0 :=
  coreDeleg_noPhys o conf p
    (txDeleg_noPhys o conf p (runFn_noPhys o conf p)) w ctx id h

theorem applyOp_trace_one (o : Oracle) (w : World) (id : Nat) (op : TxOp) :
    ∃ s, (applyOp o w id op).trace = w.trace ++ [s] := by
  cases op with
  | beginOp =>
    simp only [applyOp, TX.Begin, TX.Exec]
    cases o (.exec ("SAVEPOINT " ++ transactionKeyForNestedPoint (w.getTx id))) <;>
      exact ⟨_, rfl⟩
  | commitOp =>
    simp only [applyOp, TX.Commit]
    by_cases h : 0 < (w.getTx id).transactionCount
    · simp only [if_pos h, TX.Exec]
      exact ⟨_, rfl⟩
    · simp only [if_neg h]
      exact ⟨_, rfl⟩
  | rollbackOp =>
    simp only [applyOp, TX.Rollback]
    by_cases h : 0 < (w.getTx id).transactionCount
    · simp only [if_pos h, TX.Exec]
      exact ⟨_, rfl⟩
    · simp only [if_neg h]
      exact ⟨_, rfl⟩

theorem applyOp_length (o : Oracle) (w : World) (id : Nat) (op : TxOp) :
    (applyOp o w id op).heap.length = w.heap.length := by
  cases op with
  | beginOp =>
    simp only [applyOp, TX.Begin, TX.Exec]
    cases o (.exec ("SAVEPOINT " ++ transactionKeyForNestedPoint (w.getTx id))) <;>
      simp [World.emit, World.setTx]
  | commitOp =>
    simp only [applyOp, TX.Commit]
    by_cases h : 0 < (w.getTx id).transactionCount <;>
      simp [h, TX.Exec, World.emit, World.setTx]
  | rollbackOp =>
    simp only [applyOp, TX.Rollback]
    by_cases h : 0 < (w.getTx id).transactionCount <;>
      simp [h, TX.Exec, World.emit, World.setTx]

theorem applyOp_count_nonneg (o : Oracle) (w : World) (id : Nat) (op : TxOp)
    (hid : id < w.heap.length) (h : 0 ≤ (w.getTx id).transactionCount) :
    0 ≤ ((applyOp o w id op).getTx id).transactionCount := by
  cases op with
  | beginOp =>
    simp only [applyOp, TX.Begin, TX.Exec]
    cases o (.exec ("SAVEPOINT " ++ transactionKeyForNestedPoint (w.getTx id))) with
    | none =>
      rw [getTx_setTx_self _ _ _ (by simpa [World.emit] using hid)]
      show 0 ≤ ((w.emit _).getTx id).transactionCount + 1
      rw [show (w.emit (.exec ("SAVEPOINT " ++
        transactionKeyForNestedPoint (w.getTx id)))).getTx id = w.getTx id from rfl]
      omega
    | some e => exact h
  | commitOp =>
    simp only [applyOp, TX.Commit]
    by_cases hpos : 0 < (w.getTx id).transactionCount
    · simp only [if_pos hpos, TX.Exec]
      rw [show ∀ (x : World) (s : Stmt), (x.emit s).getTx id = x.getTx id
        from fun _ _ => rfl]
      rw [getTx_setTx_self _ _ _ hid]
      show 0 ≤ (w.getTx id).transactionCount - 1
      omega
    · simp only [if_neg hpos]
      exact h
  | rollbackOp =>
    simp only [applyOp, TX.Rollback]
    by_cases hpos : 0 < (w.getTx id).transactionCount
    · simp only [if_pos hpos, TX.Exec]
      rw [show ∀ (x : World) (s : Stmt), (x.emit s).getTx id = x.getTx id
        from fun _ _ => rfl]
      rw [getTx_setTx_self _ _ _ hid]
      show 0 ≤ (w.getTx id).transactionCount - 1
      omega
    · simp only [if_neg hpos]
      exact h

theorem applyOp_final_count (o : Oracle) (w : World) (id : Nat) (op : TxOp)
    (h : 0 ≤ (w.getTx id).transactionCount) :
    (applyOp o w id op).trace.countP isFinalStmt = w.trace.countP isFinalStmt ∨
      (w.getTx id).transactionCount = 0 := by
  cases op with
  | beginOp =>
    left
    simp only [applyOp, TX.Begin, TX.Exec]
    cases o (.exec ("SAVEPOINT " ++ transactionKeyForNestedPoint (w.getTx id))) <;>
      simp [World.emit, World.setTx, List.countP_append, isFinalStmt]
  | commitOp =>
    by_cases hpos : 0 < (w.getTx id).transactionCount
    · left
      simp only [applyOp, TX.Commit, if_pos hpos, TX.Exec]
      simp [World.emit, World.setTx, List.countP_append, isFinalStmt]
    · right
      omega
  | rollbackOp =>
    by_cases hpos : 0 < (w.getTx id).transactionCount
    · left
      simp only [applyOp, TX.Rollback, if_pos hpos, TX.Exec]
      simp [World.emit, World.setTx, List.countP_append, isFinalStmt]
    · right
      omega

theorem counterNonNeg_true (o : Oracle) (id : Nat) :
    ∀ (ops : List TxOp) (w : World), id < w.heap.length →
      0 ≤ (w.getTx id).transactionCount → counterNonNeg o w id ops = true := by
  intro ops
  induction ops with
  | nil => intro w _ _; rfl
  | cons op rest ih =>
    intro w hid h
    have hstep := applyOp_count_nonneg o w id op hid h
    have hlen : id < (applyOp o w id op).heap.length := by
      rw [applyOp_length]; exact hid
    simp only [counterNonNeg, Bool.and_eq_true, decide_eq_true_eq]
    exact ⟨hstep, ih (applyOp o w id op) hlen hstep⟩

theorem physAtZeroOnly_true (o : Oracle) (id : Nat) :
    ∀ (ops : List TxOp) (w : World), id < w.heap.length →
      0 ≤ (w.getTx id).transactionCount → physAtZeroOnly o w id ops = true := by
  intro ops
  induction ops with
  | nil => intro w _ _; rfl
  | cons op rest ih =>
    intro w hid h
    have hstep := applyOp_count_nonneg o w id op hid h
    have hlen : id < (applyOp o w id op).heap.length := by
      rw [applyOp_length]; exact hid
    simp only [physAtZeroOnly, Bool.and_eq_true, Bool.or_eq_true, beq_iff_eq]
    refine ⟨?_, ih (applyOp o w id op) hlen hstep⟩
    rcases applyOp_final_count o w id op h with hl | hr
    · left; exact hl
    · right; exact hr

theorem runOps_final_le (o : Oracle) (id : Nat) :
    ∀ (ops : List TxOp) (w : World), noAfterFinal o w id ops = true →
      (runOps o w id ops).trace.countP isFinalStmt ≤
        w.trace.countP isFinalStmt + 1 := by
  intro ops
  induction ops with
  | nil => intro w _; simp [runOps]
  | cons op rest ih =>
    intro w hn
    simp only [noAfterFinal, Bool.and_eq_true, decide_eq_true_eq] at hn
    obtain ⟨hz, hn'⟩ := hn
    obtain ⟨s, hs⟩ := applyOp_trace_one o w id op
    have hstep : (applyOp o w id op).trace.countP isFinalStmt ≤
        w.trace.countP isFinalStmt + 1 := by
      rw [hs]
      simp [List.countP_append, List.countP_cons]
      split <;> omega
    cases rest with
    | nil =>
      simp only [runOps]
      exact hstep
    | cons r t =>
      have := ih (applyOp o w id op) hn'
      simp only [noAfterFinal, Bool.and_eq_true, decide_eq_true_eq] at hn'
      obtain ⟨hz', _⟩ := hn'
      simp only [runOps] at this ⊢
      omega

/-- C4 (P3, reuse not duplication): calling `Core.Transaction` with a
context that already carries a bound handle for the manager's group never
issues a second physical `BEGIN` — in fact no physical statement at all —
for any body and any driver behavior; it delegates to the existing handle:
no handle is allocated, and the handle's group and identity are untouched,
its nesting counter returning to its initial value. -/
theorem reuse_no_second_begin (o : Oracle) (conf : DBConf) (p : Prog) (w : World)
    (ctx : Ctx) (id : Nat)
    (h1 : ctx ≠ Ctx.nil)
    (h2 : ctx.value (transactionKeyForContext conf.group) = some (.txRef id))
    (h3 : id < w.heap.length)
    (h4 : (w.getTx id).group = conf.group)
    (h5 : 0 ≤ (w.getTx id).transactionCount) :
    ∃ t, (coreTransaction o conf w ctx p).1.trace = w.trace ++ t ∧
      t.countP isPhysicalStmt = 0 ∧
      (coreTransaction o conf w ctx p).1.heap.length = w.heap.length ∧
      ((coreTransaction o conf w ctx p).1.getTx id).transactionCount =
        (w.getTx id).transactionCount ∧
      ((coreTransaction o conf w ctx p).1.getTx id).group = (w.getTx id).group ∧
      ((coreTransaction o conf w ctx p).1.getTx id).transactionId =
        (w.getTx id).transactionId := by
  obtain ⟨⟨t, ht, hcnt⟩, hl, hn, hg, hi, _⟩ :=
    coreTransaction_noPhys o conf p w ctx id ⟨h1, h2, h3, h4, h5⟩
  exact ⟨t, ht, hcnt, hl, by rw [hn]; omega, hg, hi⟩

theorem reuse_no_second_begin_witness :
    ∃ t, (coreTransaction allOk ⟨"g", Ctx.root⟩ boundWorld boundCtx
        (.nest (.ret none))).1.trace = boundWorld.trace ++ t ∧
      t.countP isPhysicalStmt = 0 ∧
      (coreTransaction allOk ⟨"g", Ctx.root⟩ boundWorld boundCtx
        (.nest (.ret none))).1.heap.length = boundWorld.heap.length ∧
      ((coreTransaction allOk ⟨"g", Ctx.root⟩ boundWorld boundCtx
        (.nest (.ret none))).1.getTx 0).transactionCount =
        (boundWorld.getTx 0).transactionCount ∧
      ((coreTransaction allOk ⟨"g", Ctx.root⟩ boundWorld boundCtx
        (.nest (.ret none))).1.getTx 0).group = (boundWorld.getTx 0).group ∧
      ((coreTransaction allOk ⟨"g", Ctx.root⟩ boundWorld boundCtx
        (.nest (.ret none))).1.getTx 0).transactionId =
        (boundWorld.getTx 0).transactionId :=
  reuse_no_second_begin allOk ⟨"g", Ctx.root⟩ (.nest (.ret none)) boundWorld
    boundCtx 0 (by decide) (by decide) (by decide) (by decide) (by decide)

/-- Counterexample to C5 as stated: the code has no guard against
operating on a finalized handle, so over arbitrary operation sequences
the physical transaction is not finalized at most once — two `Commit`
calls at counter 0 emit two physical `COMMIT` statements. -/
theorem double_commit_counterexample :
    (runOps allOk freshWorld 0 [TxOp.commitOp, TxOp.commitOp]).trace =
      [Stmt.commit, Stmt.commit] ∧
    ((runOps allOk freshWorld 0 [TxOp.commitOp, TxOp.commitOp]).trace.countP
      isFinalStmt) = 2 ∧ ¬ ((runOps allOk freshWorld 0
        [TxOp.commitOp, TxOp.commitOp]).trace.countP isFinalStmt ≤ 1) := by
  refine ⟨by decide, by decide, by decide⟩

/-- C5 amended (counter invariant): over every sequence of handle
operations, the nesting counter never becomes negative, and a physical
`COMMIT`/`ROLLBACK` is only ever emitted by an operation performed at
counter 0; moreover along any sequence in which no operation follows the
first physical finalization (the spec's lifecycle: `Finalized` is
terminal), at most one physical finalization is emitted. -/
theorem counter_invariant_amended (o : Oracle) (w : World) (id : Nat)
    (ops : List TxOp) (hid : id < w.heap.length)
    (h0 : 0 ≤ (w.getTx id).transactionCount) :
    counterNonNeg o w id ops = true ∧
    physAtZeroOnly o w id ops = true ∧
    (noAfterFinal o w id ops = true →
      (runOps o w id ops).trace.countP isFinalStmt ≤
        w.trace.countP isFinalStmt + 1) :=
  ⟨counterNonNeg_true o id ops w hid h0,
   physAtZeroOnly_true o id ops w hid h0,
   fun hn => runOps_final_le o id ops w hn⟩

theorem counter_invariant_amended_witness :
    (0 : Int) ≤ (freshWorld.getTx 0).transactionCount ∧
    (counterNonNeg allOk freshWorld 0 [TxOp.beginOp, TxOp.commitOp, TxOp.commitOp]
        = true ∧
      physAtZeroOnly allOk freshWorld 0 [TxOp.beginOp, TxOp.commitOp, TxOp.commitOp]
        = true ∧
      (noAfterFinal allOk freshWorld 0 [TxOp.beginOp, TxOp.commitOp, TxOp.commitOp]
          = true →
        (runOps allOk freshWorld 0
          [TxOp.beginOp, TxOp.commitOp, TxOp.commitOp]).trace.countP isFinalStmt ≤
          freshWorld.trace.countP isFinalStmt + 1)) :=
  ⟨by decide, counter_invariant_amended allOk freshWorld 0
    [TxOp.beginOp, TxOp.commitOp, TxOp.commitOp] (by decide) (by decide)⟩

/-- Counterexample to C6 as stated: at counter 1, `Commit` emits
`RELEASE SAVEPOINT transaction0` — the name is derived from the counter
value after the decrement (0), not from the pre-decrement value 1, which
would give `transaction1`. -/
theorem commit_release_name_counterexample :
    (TX.Commit allOk nestedWorld 0).1.trace =
      [.exec "RELEASE SAVEPOINT transaction0"] ∧
    (TX.Commit allOk nestedWorld 0).1.trace ≠
      [.exec ("RELEASE SAVEPOINT " ++ savePointName (nestedWorld.getTx 0).transactionCount)] ∧
    savePointName (nestedWorld.getTx 0).transactionCount = "transaction1" := by
  refine ⟨by decide, by decide, by decide⟩

/-- C6 amended: for a handle whose counter is positive, `Commit` decrements
the counter and emits one `RELEASE SAVEPOINT` statement whose name is
derived from the post-decrement counter value (the name under which the
matching savepoint was created), and returns that statement's driver
error. -/
theorem commit_nested_release_postdecrement (o : Oracle) (w : World) (id : Nat)
    (hid : id < w.heap.length)
    (hpos : 0 < (w.getTx id).transactionCount) :
    (TX.Commit o w id).1.trace = w.trace ++
      [.exec ("RELEASE SAVEPOINT " ++
        savePointName ((w.getTx id).transactionCount - 1))] ∧
    ((TX.Commit o w id).1.getTx id).transactionCount =
      (w.getTx id).transactionCount - 1 ∧
    (TX.Commit o w id).2 =
      o (.exec ("RELEASE SAVEPOINT " ++
        savePointName ((w.getTx id).transactionCount - 1))) := by
  rw [TX.Commit_nested o w id hpos]
  refine ⟨rfl, ?_, rfl⟩
  rw [show ∀ (x : World) (s : Stmt), (x.emit s).getTx id = x.getTx id
    from fun _ _ => rfl]
  rw [getTx_setTx_self _ _ _ hid]

theorem commit_nested_release_postdecrement_witness :
    0 < (nestedWorld.getTx 0).transactionCount ∧
    ((TX.Commit allOk nestedWorld 0).1.trace = nestedWorld.trace ++
      [.exec ("RELEASE SAVEPOINT " ++
        savePointName ((nestedWorld.getTx 0).transactionCount - 1))] ∧
    ((TX.Commit allOk nestedWorld 0).1.getTx 0).transactionCount =
      (nestedWorld.getTx 0).transactionCount - 1 ∧
    (TX.Commit allOk nestedWorld 0).2 =
      allOk (.exec ("RELEASE SAVEPOINT " ++
        savePointName ((nestedWorld.getTx 0).transactionCount - 1)))) :=
  ⟨by decide, commit_nested_release_postdecrement allOk nestedWorld 0
    (by decide) (by decide)⟩

theorem TXFromCtx_snd (w : World) (ctx : Ctx) (g : String) :
    (TXFromCtx w ctx g).2 = ctxFound ctx g := by
  cases ctx with
  | nil => rfl
  | root => rfl
  | withValue p k v =>
    simp only [TXFromCtx, ctxFound]
    rcases (Ctx.withValue p k v).value (transactionKeyForContext g) with _ | v'
    · rfl
    · cases v' <;> rfl

theorem getTx_setTx_ctx_group (w : World) (i j : Nat) (x : Ctx) :
    ((w.setTx i { w.getTx i with ctx := x }).getTx j).group = (w.getTx j).group := by
  by_cases hij : i = j
  · subst hij
    by_cases hlen : i < w.heap.length
    · rw [getTx_setTx_self _ _ _ hlen]
    · simp [World.setTx, World.getTx,
        List.set_eq_of_length_le (Nat.le_of_not_lt hlen)]
  · rw [getTx_setTx_ne _ _ _ _ hij]

theorem getTx_setTx_ctx_dbCtx (w : World) (i j : Nat) (x : Ctx) :
    ((w.setTx i { w.getTx i with ctx := x }).getTx j).dbCtx = (w.getTx j).dbCtx := by
  by_cases hij : i = j
  · subst hij
    by_cases hlen : i < w.heap.length
    · rw [getTx_setTx_self _ _ _ hlen]
    · simp [World.setTx, World.getTx,
        List.set_eq_of_length_le (Nat.le_of_not_lt hlen)]
  · rw [getTx_setTx_ne _ _ _ _ hij]

theorem TXFromCtx_getTx_group (w : World) (ctx : Ctx) (g : String) (j : Nat) :
    (((TXFromCtx w ctx g).1).getTx j).group = (w.getTx j).group := by
  cases ctx with
  | nil => rfl
  | root => rfl
  | withValue p k v =>
    simp only [TXFromCtx]
    rcases hv : (Ctx.withValue p k v).value (transactionKeyForContext g) with _ | v'
    · rfl
    · cases v' with
      | txRef i =>
        simp only [hv]
        exact getTx_setTx_ctx_group w i j _
      | txNum n => simp only [hv]

theorem TXFromCtx_getTx_dbCtx (w : World) (ctx : Ctx) (g : String) (j : Nat) :
    (((TXFromCtx w ctx g).1).getTx j).dbCtx = (w.getTx j).dbCtx := by
  cases ctx with
  | nil => rfl
  | root => rfl
  | withValue p k v =>
    simp only [TXFromCtx]
    rcases hv : (Ctx.withValue p k v).value (transactionKeyForContext g) with _ | v'
    · rfl
    · cases v' with
      | txRef i =>
        simp only [hv]
        exact getTx_setTx_ctx_dbCtx w i j _
      | txNum n => simp only [hv]

/-- Lemma: `WithTX` never changes any handle's group. -/
theorem WithTX_getTx_group (w : World) (ctx : Ctx) (id j : Nat) :
    (((WithTX w ctx (some id)).1).getTx j).group = (w.getTx j).group := by
  simp only [WithTX]
  cases hf1 : foundGroup (TXFromCtx w ctx ((w.getTx id).group)).1
      (TXFromCtx w ctx ((w.getTx id).group)).2 ((w.getTx id).group) with
  | true =>
    simp only [hf1, if_true]
    exact TXFromCtx_getTx_group w ctx _ j
  | false =>
    simp only [hf1, Bool.false_eq_true, if_false]
    cases hf2 : foundGroup
        (TXFromCtx (TXFromCtx w ctx ((w.getTx id).group)).1
          (((TXFromCtx w ctx ((w.getTx id).group)).1.getTx id).dbCtx)
          ((w.getTx id).group)).1
        (TXFromCtx (TXFromCtx w ctx ((w.getTx id).group)).1
          (((TXFromCtx w ctx ((w.getTx id).group)).1.getTx id).dbCtx)
          ((w.getTx id).group)).2 ((w.getTx id).group) with
    | true =>
      simp only [hf2, if_true]
      rw [TXFromCtx_getTx_group, TXFromCtx_getTx_group]
    | false =>
      simp only [hf2, Bool.false_eq_true, if_false]
      rw [TXFromCtx_getTx_group, TXFromCtx_getTx_group]

/-- After `WithTX`, the returned context carries a handle of the group of
the handle being bound (found in the returned world). -/
theorem WithTX_post (w : World) (ctx : Ctx) (id : Nat) :
    ∃ j, ctxFound ((WithTX w ctx (some id)).2) ((w.getTx id).group) = some j ∧
      (((WithTX w ctx (some id)).1).getTx j).group = (w.getTx id).group := by
  simp only [WithTX]
  cases hf1 : foundGroup (TXFromCtx w ctx ((w.getTx id).group)).1
      (TXFromCtx w ctx ((w.getTx id).group)).2 ((w.getTx id).group) with
  | true =>
    simp only [hf1, if_true]
    rcases hr : (TXFromCtx w ctx ((w.getTx id).group)).2 with _ | j
    · rw [hr] at hf1; simp [foundGroup] at hf1
    · refine ⟨j, ?_, ?_⟩
      · rw [← TXFromCtx_snd w ctx ((w.getTx id).group), hr]
      · rw [hr] at hf1
        simp only [foundGroup] at hf1
        exact eq_of_beq hf1
  | false =>
    simp only [hf1, Bool.false_eq_true, if_false]
    cases hf2 : foundGroup
        (TXFromCtx (TXFromCtx w ctx ((w.getTx id).group)).1
          (((TXFromCtx w ctx ((w.getTx id).group)).1.getTx id).dbCtx)
          ((w.getTx id).group)).1
        (TXFromCtx (TXFromCtx w ctx ((w.getTx id).group)).1
          (((TXFromCtx w ctx ((w.getTx id).group)).1.getTx id).dbCtx)
          ((w.getTx id).group)).2 ((w.getTx id).group) with
    | true =>
      simp only [hf2, if_true]
      rcases hr : (TXFromCtx (TXFromCtx w ctx ((w.getTx id).group)).1
          (((TXFromCtx w ctx ((w.getTx id).group)).1.getTx id).dbCtx)
          ((w.getTx id).group)).2 with _ | j
      · rw [hr] at hf2; simp [foundGroup] at hf2
      · refine ⟨j, ?_, ?_⟩
        · rw [← TXFromCtx_snd (TXFromCtx w ctx ((w.getTx id).group)).1
            (((TXFromCtx w ctx ((w.getTx id).group)).1.getTx id).dbCtx)
            ((w.getTx id).group), hr]
        · rw [hr] at hf2
          simp only [foundGroup] at hf2
          exact eq_of_beq hf2
    | false =>
      simp only [hf2, Bool.false_eq_true, if_false]
      refine ⟨id, ?_, ?_⟩
      · simp [ctxFound, Ctx.value]
      · rw [TXFromCtx_getTx_group, TXFromCtx_getTx_group]

/-- Lemma: `WithTX` is a no-op on a context that already carries a handle of the
same group (present in the current world). -/
theorem WithTX_noop (w : World) (c : Ctx) (id : Nat)
    (h : ∃ j, ctxFound c ((w.getTx id).group) = some j ∧
      (w.getTx j).group = (w.getTx id).group) :
    (WithTX w c (some id)).2 = c := by
  obtain ⟨j, hj, hgj⟩ := h
  simp only [WithTX]
  have hsnd : (TXFromCtx w c ((w.getTx id).group)).2 = some j := by
    rw [TXFromCtx_snd]; exact hj
  have hfound : foundGroup (TXFromCtx w c ((w.getTx id).group)).1
      (TXFromCtx w c ((w.getTx id).group)).2 ((w.getTx id).group) = true := by
    rw [hsnd]
    simp only [foundGroup]
    rw [TXFromCtx_getTx_group]
    simp [hgj]
  simp only [hfound, if_true]

/-- C8 (P4, idempotent binding): binding the same handle twice in a row —
the second `WithTX` receiving the state and context produced by the
first — returns its input context unchanged, so the doubly-bound context
is identical to the singly-bound one for all lookups. -/
theorem withTX_rebind_idempotent (w : World) (ctx : Ctx) (id : Nat) :
    (WithTX (WithTX w ctx (some id)).1 (WithTX w ctx (some id)).2 (some id)).2 =
      (WithTX w ctx (some id)).2 := by
  apply WithTX_noop
  obtain ⟨j, hj, hgj⟩ := WithTX_post w ctx id
  refine ⟨j, ?_, ?_⟩
  · rw [WithTX_getTx_group w ctx id id]
    exact hj
  · rw [WithTX_getTx_group w ctx id id]
    exact hgj

theorem TXFromCtx_found_world (w : World) (ctx : Ctx) (g : String) (id : Nat)
    (h : (TXFromCtx w ctx g).2 = some id) :
    (TXFromCtx w ctx g).1 = w.setTx id { w.getTx id with ctx := ctx } := by
  cases ctx with
  | nil => simp [TXFromCtx] at h
  | root => simp [TXFromCtx, Ctx.value] at h
  | withValue p k v =>
    rcases hv : (Ctx.withValue p k v).value (transactionKeyForContext g) with _ | v'
    · rw [TXFromCtx_notfound w _ g hv] at h
      simp at h
    · cases v' with
      | txRef i =>
        have hfound := TXFromCtx_found w (.withValue p k v) g i (by simp) hv
        rw [hfound] at h ⊢
        simp only [Option.some.injEq] at h
        subst h
        rfl
      | txNum n =>
        have hnone : TXFromCtx w (.withValue p k v) g = (w, none) := by
          simp only [TXFromCtx, hv]
        rw [hnone] at h
        simp at h

/-- C9: lookup on a nil context, or on a context without a binding for the
group, reports absence (`none`) and leaves the state untouched rather than
failing; and whenever lookup finds a bound (allocated) handle, it
re-points that handle's stored context reference to the lookup context
before returning it. -/
theorem txFromCtx_lookup_spec (w : World) (ctx : Ctx) (g : String) :
    TXFromCtx w Ctx.nil g = (w, none) ∧
    (ctx.value (transactionKeyForContext g) = none →
      TXFromCtx w ctx g = (w, none)) ∧
    (∀ id, (TXFromCtx w ctx g).2 = some id → id < w.heap.length →
      (((TXFromCtx w ctx g).1).getTx id).ctx = ctx) := by
  refine ⟨rfl, fun h => TXFromCtx_notfound w ctx g h, ?_⟩
  intro id h hlen
  rw [TXFromCtx_found_world w ctx g id h]
  rw [getTx_setTx_self _ _ _ hlen]

theorem txFromCtx_lookup_spec_witness :
    (((TXFromCtx boundWorld boundCtx "g").1).getTx 0).ctx = boundCtx :=
  (txFromCtx_lookup_spec boundWorld boundCtx "g").2.2 0 (by decide) (by decide)

/-- C10: injecting a nil transaction handle returns the input context
unchanged and performs no lookup and no state change. -/
theorem withTX_nil_handle_identity (w : World) (ctx : Ctx) :
    WithTX w ctx none = (w, ctx) := rfl

theorem nested_failure_rollback_propagation_witness :
    (coreTransaction rbFail conf0 W0 Ctx.root (chainE "E" 1)).1.trace =
      Stmt.begin :: ((spList 0 1 ++ rbList 0 1) ++ [Stmt.rollback]) ∧
    (coreTransaction rbFail conf0 W0 Ctx.root (chainE "E" 1)).2 =
      some (((rbList 0 1 ++ [Stmt.rollback]).filterMap rbFail).getLastD "E") ∧
    (rbList 0 1).length = 1 ∧
    rbList 0 1 = ((spList 0 1).reverse.map rollbackToOf) ∧
    ((∀ s, rbFail s = none) →
      (coreTransaction rbFail conf0 W0 Ctx.root (chainE "E" 1)).2 = some "E") :=
  nested_failure_rollback_propagation 1 "E" rbFail (by decide) (fun c => rfl)

end GdbTx
